import Mathlib

/-!
Verification of the har-mcp HTTP wrapper (src/http-wrapper/main.go).

This file gives a shallow embedding of the wrapper's data model and
operations:

* a JSON value model together with a compact encoder and a fueled parser
  modelling the fragment of Go's `encoding/json` behavior that the wrapper
  exercises (`Decoder.Decode` reads a single value and leaves trailing
  bytes; `Unmarshal` requires the whole input to be one value; struct
  decoding drops unknown fields, treats `null` specially, and records
  `json.RawMessage` fields as the raw source bytes of the value;
  marshalling re-encodes `RawMessage` fields compactly).
  Model scope: numbers are integers (no fractions/exponents/floats), the
  only string escapes handled are backslash-quote and backslash-backslash,
  and HTML escaping is not modelled; no claim in this development depends
  on the excluded fragment.
* the `MCPRequest` / `MCPResponse` envelopes and the decode/encode
  pipeline of `SendRequest` and `handleMCP`;
* a sequential per-request model of `handleMCP` (single request against a
  wrapper state, with the child process and process spawning abstracted as
  oracles);
* a small-step interleaving model of the registry (`getOrCreateSession`
  plus the per-session eviction goroutine), used for the concurrency and
  timer claims;
* a small-step model of the mutex discipline of `SendRequest`, used for
  the pipe-serialization claim.
-/

namespace Har

/-- Left brace character (written via its code point to keep it out of
string literals). -/
def lbr : Char := Char.ofNat 123

/-- Right brace character. -/
def rbr : Char := Char.ofNat 125

/-- Double-quote character. -/
def qch : Char := Char.ofNat 34

/-- Backslash character. -/
def bsl : Char := '\\'

/-- Whitespace per Go's JSON scanner (space, tab, newline, carriage
return). -/
def isWs (c : Char) : Bool :=
  c = ' ' || c = '\t' || c = '\n' || c = '\r'

/-- Drop leading JSON whitespace. -/
def skipWs (s : List Char) : List Char := s.dropWhile isWs

/-- JSON values.  Numbers are modelled as integers. -/
inductive Json : Type where
  | null : Json
  | bool (b : Bool) : Json
  | num (n : Int) : Json
  | str (s : String) : Json
  | arr (xs : List Json) : Json
  | obj (members : List (String × Json)) : Json

/-- Escape a string body for JSON output: backslash and double quote are
escaped, everything else passes through. -/
def escapeChars : List Char → List Char
  | [] => []
  | c :: rest =>
    if c = qch || c = bsl then bsl :: c :: escapeChars rest
    else c :: escapeChars rest

mutual

/-- Compact JSON encoding, as produced by Go's `json.Marshal` /
`json.Compact` on the modelled fragment. -/
def encodeJson : Json → List Char
  | .null => 'n' :: 'u' :: 'l' :: 'l' :: []
  | .bool true => 't' :: 'r' :: 'u' :: 'e' :: []
  | .bool false => 'f' :: 'a' :: 'l' :: 's' :: 'e' :: []
  | .num n => (toString n).data
  | .str s => qch :: (escapeChars s.data ++ [qch])
  | .arr xs => '[' :: (encodeElems xs ++ [']'])
  | .obj ms => lbr :: (encodeMembers ms ++ [rbr])

/-- Encode array elements, comma separated. -/
def encodeElems : List Json → List Char
  | [] => []
  | [x] => encodeJson x
  | x :: y :: rest => encodeJson x ++ ',' :: encodeElems (y :: rest)

/-- Encode object members, comma separated; each member is the quoted
escaped key, a colon, and the encoded value. -/
def encodeMembers : List (String × Json) → List Char
  | [] => []
  | [(k, v)] => qch :: (escapeChars k.data ++ (qch :: ':' :: encodeJson v))
  | (k, v) :: m2 :: rest =>
    (qch :: (escapeChars k.data ++ (qch :: ':' :: encodeJson v))) ++
      ',' :: encodeMembers (m2 :: rest)

end

/-- Match an expected literal tail (for `null`, `true`, `false`). -/
def stripLit : List Char → List Char → Option (List Char)
  | [], s => some s
  | _ :: _, [] => none
  | p :: ps, c :: cs => if c = p then stripLit ps cs else none

/-- Parse the body of a JSON string after the opening quote, returning the
unescaped content and the remainder after the closing quote.  Only the
backslash-quote and backslash-backslash escapes are modelled; any other
escape makes the parse fail (out of model scope). -/
def parseStrAux : List Char → Option (List Char × List Char)
  | [] => none
  | c :: rest =>
    if c = qch then some ([], rest)
    else if c = bsl then
      match rest with
      | [] => none
      | d :: rest2 =>
        if d = qch || d = bsl then
          match parseStrAux rest2 with
          | some (cs, r) => some (d :: cs, r)
          | none => none
        else none
    else
      match parseStrAux rest with
      | some (cs, r) => some (c :: cs, r)
      | none => none

/-- Value of a digit character. -/
def digitVal (c : Char) : Nat := c.toNat - 48

/-- Fold a digit list into a natural number. -/
def natFromDigits (ds : List Char) : Nat :=
  ds.foldl (fun n c => n * 10 + digitVal c) 0

/-- Parse a nonempty digit run. -/
def parseDigits (s : List Char) : Option (Nat × List Char) :=
  let ds := s.takeWhile Char.isDigit
  if ds.isEmpty then none
  else some (natFromDigits ds, s.dropWhile Char.isDigit)

/-- Parse an integer JSON number (optional minus sign, digit run). -/
def parseNum : List Char → Option (Json × List Char)
  | [] => none
  | c :: rest =>
    if c = '-' then
      match parseDigits rest with
      | some (n, r) => some (.num (-(n : Int)), r)
      | none => none
    else
      match parseDigits (c :: rest) with
      | some (n, r) => some (.num (n : Int), r)
      | none => none

mutual

/-- Parse one JSON value: skip leading whitespace and dispatch on the
first character.  Fueled: every recursive call strictly decreases fuel,
so this is structural recursion (and reduces definitionally); the
callers supply ample fuel. -/
def parseVal : Nat → List Char → Option (Json × List Char)
  | 0, _ => none
  | f + 1, s =>
    match skipWs s with
    | [] => none
    | c :: rest =>
      if c = qch then
        match parseStrAux rest with
        | some (cs, r) => some (.str (String.mk cs), r)
        | none => none
      else if c = lbr then parseObjRest f rest
      else if c = '[' then parseArrRest f rest
      else if c = 'n' then
        match stripLit ('u' :: 'l' :: 'l' :: []) rest with
        | some r => some (.null, r)
        | none => none
      else if c = 't' then
        match stripLit ('r' :: 'u' :: 'e' :: []) rest with
        | some r => some (.bool true, r)
        | none => none
      else if c = 'f' then
        match stripLit ('a' :: 'l' :: 's' :: 'e' :: []) rest with
        | some r => some (.bool false, r)
        | none => none
      else if c = '-' || c.isDigit then parseNum (c :: rest)
      else none

/-- Parse the rest of an object after the opening brace. -/
def parseObjRest : Nat → List Char → Option (Json × List Char)
  | 0, _ => none
  | f + 1, s =>
    match skipWs s with
    | [] => none
    | c :: rest =>
      if c = rbr then some (.obj [], rest)
      else
        match parseMemberSeq f (c :: rest) with
        | some (ms, r) => some (.obj ms, r)
        | none => none

/-- Parse one or more object members separated by commas, consuming the
closing brace. -/
def parseMemberSeq : Nat → List Char → Option (List (String × Json) × List Char)
  | 0, _ => none
  | f + 1, s =>
    match skipWs s with
    | [] => none
    | c :: rest =>
      if c = qch then
        match parseStrAux rest with
        | some (kcs, r1) =>
          match skipWs r1 with
          | c1 :: r2 =>
            if c1 = ':' then
              match parseVal f r2 with
              | some (v, r3) =>
                (match skipWs r3 with
                 | c2 :: r4 =>
                   if c2 = ',' then
                     match parseMemberSeq f r4 with
                     | some (ms, r5) => some ((String.mk kcs, v) :: ms, r5)
                     | none => none
                   else if c2 = rbr then some ([(String.mk kcs, v)], r4)
                   else none
                 | [] => none)
              | none => none
            else none
          | [] => none
        | none => none
      else none

/-- Parse the rest of an array after the opening bracket. -/
def parseArrRest : Nat → List Char → Option (Json × List Char)
  | 0, _ => none
  | f + 1, s =>
    match skipWs s with
    | [] => none
    | c :: rest =>
      if c = ']' then some (.arr [], rest)
      else
        match parseElemSeq f (c :: rest) with
        | some (xs, r) => some (.arr xs, r)
        | none => none

/-- Parse one or more array elements separated by commas, consuming the
closing bracket. -/
def parseElemSeq : Nat → List Char → Option (List Json × List Char)
  | 0, _ => none
  | f + 1, s =>
    match parseVal f s with
    | some (v, r1) =>
      (match skipWs r1 with
       | c :: r2 =>
         if c = ',' then
           match parseElemSeq f r2 with
           | some (xs, r3) => some (v :: xs, r3)
           | none => none
         else if c = ']' then some ([v], r2)
         else none
       | [] => none)
    | none => none

end

/-- Parse one or more object members like `parseMemberSeq`, additionally
recording the raw source bytes of each member's value (as Go's decoder
does for a `json.RawMessage` target: the value's bytes from its first
significant character to its end, surrounding whitespace excluded). -/
def parseMemberSeqRaw :
    Nat → List Char → Option (List (String × Json × List Char) × List Char)
  | 0, _ => none
  | f + 1, s =>
    match skipWs s with
    | [] => none
    | c :: rest =>
      if c = qch then
        match parseStrAux rest with
        | some (kcs, r1) =>
          match skipWs r1 with
          | c1 :: r2 =>
            if c1 = ':' then
              let sv := skipWs r2
              match parseVal f sv with
              | some (v, r3) =>
                let raw := sv.take (sv.length - r3.length)
                (match skipWs r3 with
                 | c2 :: r4 =>
                   if c2 = ',' then
                     match parseMemberSeqRaw f r4 with
                     | some (ms, r5) => some ((String.mk kcs, v, raw) :: ms, r5)
                     | none => none
                   else if c2 = rbr then some ([(String.mk kcs, v, raw)], r4)
                   else none
                 | [] => none)
              | none => none
            else none
          | [] => none
        | none => none
      else none

/-- MCPRequest mirrors the Go struct: `JSONRPC string`,
`ID interface{} \x60json:"id,omitempty"\x60`, `Method string`,
`Params json.RawMessage`.  The `id` field of a decoded envelope is `none`
both when the member is absent and when it is an explicit JSON `null`
(Go stores a nil interface in both cases).  `params` keeps the parsed
value together with the raw source bytes (`json.RawMessage`). -/
structure MCPRequest where
  jsonrpc : String
  id : Option Json
  method : String
  params : Option (Json × List Char)

/-- Zero value of `MCPRequest`, as left by Go before decoding. -/
def MCPRequest.zero : MCPRequest :=
  { jsonrpc := "", id := none, method := "", params := none }

/-- MCPResponse mirrors the Go struct: `JSONRPC string`,
`ID interface{}`, `Result json.RawMessage`, `Error json.RawMessage`. -/
structure MCPResponse where
  jsonrpc : String
  id : Option Json
  result : Option (Json × List Char)
  error : Option (Json × List Char)

/-- Zero value of `MCPResponse`. -/
def MCPResponse.zero : MCPResponse :=
  { jsonrpc := "", id := none, result := none, error := none }

/-- Assign one decoded member to an `MCPRequest`, following Go's struct
decoding: a `null` member value leaves a string field untouched and
stores a nil interface into `id`; a type mismatch on a string field is a
decode error (`none`); unknown keys are dropped; `params` records the
value with its raw bytes. -/
def setReqField (r : MCPRequest) (k : String) (v : Json) (raw : List Char) :
    Option MCPRequest :=
  if k = "jsonrpc" then
    match v with
    | .str s => some { r with jsonrpc := s }
    | .null => some r
    | _ => none
  else if k = "id" then
    match v with
    | .null => some { r with id := none }
    | v => some { r with id := some v }
  else if k = "method" then
    match v with
    | .str s => some { r with method := s }
    | .null => some r
    | _ => none
  else if k = "params" then
    some { r with params := some (v, raw) }
  else some r

/-- Fold decoded members into an `MCPRequest` in source order (later
duplicates overwrite earlier ones, as in Go). -/
def foldReqFields : MCPRequest → List (String × Json × List Char) → Option MCPRequest
  | r, [] => some r
  | r, (k, v, raw) :: rest =>
    match setReqField r k v raw with
    | some r2 => foldReqFields r2 rest
    | none => none

/-- Assign one decoded member to an `MCPResponse` (same semantics as
`setReqField`, with `result` and `error` as `json.RawMessage` fields). -/
def setRespField (r : MCPResponse) (k : String) (v : Json) (raw : List Char) :
    Option MCPResponse :=
  if k = "jsonrpc" then
    match v with
    | .str s => some { r with jsonrpc := s }
    | .null => some r
    | _ => none
  else if k = "id" then
    match v with
    | .null => some { r with id := none }
    | v => some { r with id := some v }
  else if k = "result" then
    some { r with result := some (v, raw) }
  else if k = "error" then
    some { r with error := some (v, raw) }
  else some r

/-- Fold decoded members into an `MCPResponse` in source order. -/
def foldRespFields : MCPResponse → List (String × Json × List Char) → Option MCPResponse
  | r, [] => some r
  | r, (k, v, raw) :: rest =>
    match setRespField r k v raw with
    | some r2 => foldRespFields r2 rest
    | none => none

/-- Model of `json.NewDecoder(body).Decode(&req)`: decode exactly one
JSON value from the front of the body and return the undecoded
remainder.  An object is decoded field by field; a top-level `null`
leaves the zero request (Go's `Unmarshal` treats null as a no-op) and —
as in Go's scanner — must be followed by whitespace or end of input; any
other top-level value is an error (syntax error, or a success whose
unmarshal into the struct type fails — the caller cannot tell the two
apart, both make `Decode` return a non-nil error). -/
def goDecodeRequest (s : List Char) : Option (MCPRequest × List Char) :=
  match skipWs s with
  | [] => none
  | c :: rest =>
    if c = lbr then
      match skipWs rest with
      | [] => none
      | c2 :: rest2 =>
        if c2 = rbr then some (MCPRequest.zero, rest2)
        else
          match parseMemberSeqRaw (4 * s.length + 4) (c2 :: rest2) with
          | some (ms, r) =>
            match foldReqFields MCPRequest.zero ms with
            | some req => some (req, r)
            | none => none
          | none => none
    else if c = 'n' then
      match stripLit ('u' :: 'l' :: 'l' :: []) rest with
      | some r =>
        match r with
        | [] => some (MCPRequest.zero, [])
        | c2 :: _ => if isWs c2 then some (MCPRequest.zero, r) else none
      | none => none
    else none

/-- Trim JSON whitespace from both ends (model of `bytes.TrimSpace` on
the modelled character set). -/
def trimWs (s : List Char) : List Char :=
  ((s.dropWhile isWs).reverse.dropWhile isWs).reverse

/-- Model of `json.Unmarshal(bytes.TrimSpace(line), &resp)`: the whole
(trimmed) input must be exactly one JSON value; an object is decoded
field by field, a top-level `null` leaves the zero response, anything
else errors. -/
def goDecodeResponse (line : List Char) : Option MCPResponse :=
  match trimWs line with
  | [] => none
  | c :: rest =>
    if c = lbr then
      match skipWs rest with
      | [] => none
      | c2 :: rest2 =>
        if c2 = rbr then (if rest2.isEmpty then some MCPResponse.zero else none)
        else
          match parseMemberSeqRaw (4 * line.length + 4) (c2 :: rest2) with
          | some (ms, r) =>
            if (skipWs r).isEmpty then foldRespFields MCPResponse.zero ms
            else none
          | none => none
    else if c = 'n' then
      match stripLit ('u' :: 'l' :: 'l' :: []) rest with
      | some r => if (skipWs r).isEmpty then some MCPResponse.zero else none
      | none => none
    else none

/-- JSON value produced by `json.Marshal` on an `MCPRequest`: members in
struct order, `id` and `params` omitted when nil (`omitempty`); the
`params` raw message is re-emitted compactly (its parsed value encoded by
`encodeJson`), which is what Go's encoder does to a `RawMessage`. -/
def reqToJson (r : MCPRequest) : Json :=
  .obj ([("jsonrpc", Json.str r.jsonrpc)] ++
        (match r.id with | some v => [("id", v)] | none => []) ++
        [("method", Json.str r.method)] ++
        (match r.params with | some (v, _) => [("params", v)] | none => []))

/-- The exact line `SendRequest` writes to the child's stdin: the
marshalled request plus a trailing newline. -/
def encodeMCPRequestLine (r : MCPRequest) : List Char :=
  encodeJson (reqToJson r) ++ ['\n']

/-- JSON value produced by `json.Marshal` on an `MCPResponse` (members in
struct order, all four tagged `omitempty`). -/
def respToJson (r : MCPResponse) : Json :=
  .obj ([("jsonrpc", Json.str r.jsonrpc)] ++
        (match r.id with | some v => [("id", v)] | none => []) ++
        (match r.result with | some (v, _) => [("result", v)] | none => []) ++
        (match r.error with | some (v, _) => [("error", v)] | none => []))

/-- HTTP body written by `json.NewEncoder(rw).Encode(resp)`: the
marshalled response plus the newline `Encoder.Encode` appends. -/
def encodeMCPResponseBody (r : MCPResponse) : List Char :=
  encodeJson (respToJson r) ++ ['\n']

/-! ## Sequential per-request model of the HTTP wrapper

One inbound HTTP exchange against a wrapper state.  The child process
and process spawning are abstracted as oracles (`ChildBehavior`,
`spawnOk`); everything else is translated line by line from
`handleMCP` / `getOrCreateSession` / `SendRequest` in main.go.  The
eviction timers and lock are modelled separately (they are concurrent
behavior; see the registry and mutex models below). -/

/-- Outcome of one child exchange: the stdin write fails, the stdout
read fails before a newline, or a full line is read. -/
inductive ChildBehavior : Type where
  | writeFail : ChildBehavior
  | readFail : ChildBehavior
  | reply (line : List Char) : ChildBehavior
deriving DecidableEq

/-- Wrapper-visible state: the session table (contents of the
`sync.Map`), a fresh-session counter, how many child processes were
spawned, which sessions were closed, and the lines successfully written
to children (with a count of attempted writes). -/
structure HState where
  table : List (String × Nat)
  nextSid : Nat
  spawned : Nat
  closed : List Nat
  writes : List (Nat × List Char)
  writeAttempts : Nat
deriving DecidableEq

/-- Initial wrapper state. -/
def HState.init : HState :=
  { table := [], nextSid := 0, spawned := 0, closed := [], writes := [],
    writeAttempts := 0 }

/-- Inbound HTTP request: method, `X-Session-ID` header value (empty
string when the header is absent), body bytes. -/
structure HttpReq where
  method : String
  sessionHeader : String
  body : List Char
deriving DecidableEq

/-- HTTP response produced by the handler. -/
structure HttpResp where
  status : Nat
  body : List Char
deriving DecidableEq

/-- Association lookup in the session table (`sync.Map.Load`). -/
def tlookup : List (String × Nat) → String → Option Nat
  | [], _ => none
  | (k, v) :: rest, key => if k = key then some v else tlookup rest key

/-- Store in the session table (`sync.Map.Store`: overwrite or append). -/
def tinsert : List (String × Nat) → String → Nat → List (String × Nat)
  | [], k, v => [(k, v)]
  | (k2, v2) :: rest, k, v =>
    if k2 = k then (k, v) :: rest else (k2, v2) :: tinsert rest k v

/-- Delete from the session table (`sync.Map.Delete`). -/
def tdelete : List (String × Nat) → String → List (String × Nat)
  | [], _ => []
  | (k2, v2) :: rest, k =>
    if k2 = k then tdelete rest k else (k2, v2) :: tdelete rest k

/-- Sequential model of `getOrCreateSession`: load; on miss spawn a new
child (which may fail — `none` — in which case nothing is registered)
and store it.  The eviction goroutine it also launches is modelled in
the registry trace model. -/
def getOrCreateSession (spawnOk : Bool) (st : HState) (sessionID : String) :
    Option (HState × Nat) :=
  match tlookup st.table sessionID with
  | some s => some (st, s)
  | none =>
    if spawnOk then
      some ({ st with
                table := tinsert st.table sessionID st.nextSid,
                nextSid := st.nextSid + 1,
                spawned := st.spawned + 1 }, st.nextSid)
    else none

/-- Sequential model of `MCPSession.SendRequest`: marshal the request,
write the line (one attempt, recorded on success), read one line from
the child, unmarshal it.  `none` is any of the three failure modes
(write failure, read failure, malformed line); the session state is not
touched beyond the write bookkeeping — in particular nothing is closed
or retried. -/
def SendRequest (child : ChildBehavior) (st : HState) (s : Nat)
    (req : MCPRequest) : HState × Option MCPResponse :=
  let line := encodeMCPRequestLine req
  match child with
  | .writeFail => ({ st with writeAttempts := st.writeAttempts + 1 }, none)
  | .readFail =>
    ({ st with writeAttempts := st.writeAttempts + 1,
               writes := st.writes ++ [(s, line)] }, none)
  | .reply l =>
    ({ st with writeAttempts := st.writeAttempts + 1,
               writes := st.writes ++ [(s, line)] },
     goDecodeResponse l)

/-- Sequential model of `handleMCP`, translated in source order: method
check (405), session header defaulting, `getOrCreateSession` (500 on
failure), body decode (400 on failure — note this happens after the
session was resolved), `SendRequest` (500 on failure), 200 with the
encoded response otherwise. -/
def handleMCP (spawnOk : Bool) (child : ChildBehavior) (st : HState)
    (rq : HttpReq) : HState × HttpResp :=
  if rq.method ≠ "POST" then
    (st, { status := 405, body := ("Method not allowed\n").data })
  else
    let sessionID := if rq.sessionHeader = "" then "default" else rq.sessionHeader
    match getOrCreateSession spawnOk st sessionID with
    | none => (st, { status := 500, body := ("Failed to create MCP session\n").data })
    | some (st1, s) =>
      match goDecodeRequest rq.body with
      | none => (st1, { status := 400, body := ("Invalid JSON\n").data })
      | some (req, _) =>
        match SendRequest child st1 s req with
        | (st2, none) =>
          (st2, { status := 500, body := ("MCP request failed\n").data })
        | (st2, some resp) =>
          (st2, { status := 200, body := encodeMCPResponseBody resp })

/-- Model of `handleHealth`: fixed 200/OK, no state interaction. -/
def handleHealth (st : HState) : HState × HttpResp :=
  (st, { status := 200, body := ("OK").data })

/-- Member lookup in a JSON object (first occurrence); `none` on
non-objects or missing keys. -/
def objMember : Json → String → Option Json
  | .obj ms, k => lookupMem ms k
  | _, _ => none
where
  lookupMem : List (String × Json) → String → Option Json
    | [], _ => none
    | (k2, v) :: rest, k => if k2 = k then some v else lookupMem rest k

/-- Top-level keys of a JSON object. -/
def objKeys : Json → List String
  | .obj ms => ms.map Prod.fst
  | _ => []

/-- Boolean contiguous-substring test. -/
def infixB (needle haystack : List Char) : Bool :=
  haystack.tails.any (fun t => needle.isPrefixOf t)

/-! ## Helper lemmas about the session table -/

theorem tlookup_tinsert_self (t : List (String × Nat)) (k : String) (v : Nat) :
    tlookup (tinsert t k v) k = some v := by
  induction t with
  | nil => simp [tinsert, tlookup]
  | cons kv rest ih =>
    obtain ⟨k2, v2⟩ := kv
    by_cases h : k2 = k
    · simp [tinsert, h, tlookup]
    · simp [tinsert, h, tlookup, ih]

theorem getOrCreateSession_lookup {spawnOk : Bool} {st st1 : HState}
    {key : String} {s : Nat}
    (h : getOrCreateSession spawnOk st key = some (st1, s)) :
    tlookup st1.table key = some s := by
  unfold getOrCreateSession at h
  cases hl : tlookup st.table key with
  | some s0 =>
    rw [hl] at h
    cases h
    exact hl
  | none =>
    rw [hl] at h
    cases hok : spawnOk with
    | false => rw [hok] at h; simp at h
    | true =>
      rw [hok] at h
      simp only [if_true] at h
      cases h
      exact tlookup_tinsert_self _ _ _

/-! ## Claims about the request gateway (sequential model) -/

/-- Claim C8: for every inbound request to the JSON-RPC endpoint whose
HTTP method is not POST, the gateway responds 405 Method Not Allowed and
the wrapper state is completely untouched — no session resolved or
created, no child process spawned. -/
theorem claim8_thm (spawnOk : Bool) (child : ChildBehavior) (st : HState)
    (rq : HttpReq) (h : rq.method ≠ "POST") :
    handleMCP spawnOk child st rq =
      (st, { status := 405, body := ("Method not allowed\n").data }) := by
  unfold handleMCP
  rw [if_pos h]

/-- Witness for C8 at a concrete GET request. -/
theorem claim8_witness :
    handleMCP true ChildBehavior.writeFail HState.init
        { method := "GET", sessionHeader := "", body := [] } =
      (HState.init, { status := 405, body := ("Method not allowed\n").data }) :=
  claim8_thm true ChildBehavior.writeFail HState.init
    { method := "GET", sessionHeader := "", body := [] } (by decide)

/-- Claim C7: when a POST arrives for a previously-unseen session key and
session creation fails (the child process cannot be launched), the
handler responds 500 and the wrapper state is exactly the input state:
no entry is registered for the key, nothing is spawned. -/
theorem claim7_thm (child : ChildBehavior) (st : HState) (rq : HttpReq)
    (hpost : rq.method = "POST")
    (hmiss : tlookup st.table
        (if rq.sessionHeader = "" then "default" else rq.sessionHeader) = none) :
    handleMCP false child st rq =
      (st, { status := 500, body := ("Failed to create MCP session\n").data }) := by
  unfold handleMCP
  rw [if_neg (by simp [hpost])]
  simp only [getOrCreateSession, hmiss, Bool.false_eq_true, if_false]

/-- Witness for C7: fresh key, spawn failure. -/
theorem claim7_witness :
    handleMCP false ChildBehavior.writeFail HState.init
        { method := "POST", sessionHeader := "k1",
          body := ("\x7b\x7d").data } =
      (HState.init, { status := 500,
                      body := ("Failed to create MCP session\n").data }) :=
  claim7_thm ChildBehavior.writeFail HState.init
    { method := "POST", sessionHeader := "k1", body := ("\x7b\x7d").data }
    (by rfl) (by rfl)

/-- Counterexample to claim C1 as stated: the source resolves (and here
creates) the session before decoding the body, so a POST with a
malformed body and a previously-unseen key is answered 400 while the
registry has gained a session for that key and a child process has been
spawned.  The claim's "the Session Registry is left unchanged: no
session is created or registered for the request's session key before
the body is decoded" is false at this input. -/
theorem claim1_counterexample :
    (handleMCP true ChildBehavior.writeFail HState.init
        { method := "POST", sessionHeader := "", body := [lbr] }).2.status = 400 ∧
    (handleMCP true ChildBehavior.writeFail HState.init
        { method := "POST", sessionHeader := "", body := [lbr] }).1.table =
      [("default", 0)] ∧
    (handleMCP true ChildBehavior.writeFail HState.init
        { method := "POST", sessionHeader := "", body := [lbr] }).1.spawned = 1 ∧
    HState.init.table = [] ∧ HState.init.spawned = 0 := by
  refine ⟨rfl, rfl, rfl, rfl, rfl⟩

/-- Claim C1, amended: a POST whose body is not valid JSON is answered
400 with a diagnostic message, and the decode failure itself changes
nothing further — but the session for the request's key has already been
resolved (and created when unseen) before the body is decoded, so the
final state is exactly the post-resolve state, not necessarily the input
state. -/
theorem claim1_thm (spawnOk : Bool) (child : ChildBehavior) (st st1 : HState)
    (s : Nat) (rq : HttpReq)
    (hpost : rq.method = "POST")
    (hres : getOrCreateSession spawnOk st
        (if rq.sessionHeader = "" then "default" else rq.sessionHeader) =
        some (st1, s))
    (hbad : goDecodeRequest rq.body = none) :
    handleMCP spawnOk child st rq =
      (st1, { status := 400, body := ("Invalid JSON\n").data }) := by
  unfold handleMCP
  rw [if_neg (by simp [hpost])]
  simp only [hres, hbad]

/-- Witness for the amended C1: existing session, malformed body. -/
theorem claim1_witness :
    handleMCP true ChildBehavior.writeFail
        { table := [("default", 4)], nextSid := 5, spawned := 1, closed := [],
          writes := [], writeAttempts := 0 }
        { method := "POST", sessionHeader := "", body := ('x' :: []) } =
      ({ table := [("default", 4)], nextSid := 5, spawned := 1, closed := [],
         writes := [], writeAttempts := 0 },
       { status := 400, body := ("Invalid JSON\n").data }) :=
  claim1_thm true ChildBehavior.writeFail _ _ 4
    { method := "POST", sessionHeader := "", body := ('x' :: []) }
    (by rfl) (by rfl) (by rfl)

/-! ## Structure of the marshalled envelopes -/

theorem respToJson_id (resp : MCPResponse) :
    objMember (respToJson resp) "id" = resp.id := by
  rcases resp with ⟨j, id, res, err⟩
  rcases id with _ | v <;> rcases res with _ | ⟨rv, rr⟩ <;>
    rcases err with _ | ⟨ev, er⟩ <;> rfl

theorem reqToJson_id (req : MCPRequest) :
    objMember (reqToJson req) "id" = req.id := by
  rcases req with ⟨j, id, m, ps⟩
  rcases id with _ | v <;> rcases ps with _ | ⟨pv, pr⟩ <;> rfl

theorem reqToJson_params (req : MCPRequest) :
    objMember (reqToJson req) "params" = req.params.map Prod.fst := by
  rcases req with ⟨j, id, m, ps⟩
  rcases id with _ | v <;> rcases ps with _ | ⟨pv, pr⟩ <;> rfl

theorem reqToJson_keys (req : MCPRequest) :
    objKeys (reqToJson req) ⊆ ("jsonrpc" :: "id" :: "method" :: "params" :: []) := by
  rcases req with ⟨j, id, m, ps⟩
  rcases id with _ | v <;> rcases ps with _ | ⟨pv, pr⟩ <;>
    · intro x hx
      simp only [reqToJson, objKeys, List.map] at hx
      simp_all
      all_goals tauto

/-- Claim C6: for every exchange failure — write failure, read failure
before a newline, or a malformed JSON line from the child — the handler
answers 500 with a diagnostic; nothing is retried (exactly one write
attempt is made), and the session's registry entry is unchanged: the
session is neither closed nor restarted nor removed and remains
registered under its key. -/
theorem claim6_thm (spawnOk : Bool) (child : ChildBehavior) (st st1 : HState)
    (s : Nat) (rq : HttpReq) (req : MCPRequest) (rest : List Char)
    (hpost : rq.method = "POST")
    (hres : getOrCreateSession spawnOk st
        (if rq.sessionHeader = "" then "default" else rq.sessionHeader) =
        some (st1, s))
    (hdec : goDecodeRequest rq.body = some (req, rest))
    (hfail : match child with
             | .writeFail => True
             | .readFail => True
             | .reply l => goDecodeResponse l = none) :
    (handleMCP spawnOk child st rq).2.status = 500 ∧
    (handleMCP spawnOk child st rq).2.body = ("MCP request failed\n").data ∧
    (handleMCP spawnOk child st rq).1.table = st1.table ∧
    (handleMCP spawnOk child st rq).1.closed = st1.closed ∧
    (handleMCP spawnOk child st rq).1.spawned = st1.spawned ∧
    (handleMCP spawnOk child st rq).1.nextSid = st1.nextSid ∧
    tlookup (handleMCP spawnOk child st rq).1.table
      (if rq.sessionHeader = "" then "default" else rq.sessionHeader) = some s ∧
    (handleMCP spawnOk child st rq).1.writeAttempts = st1.writeAttempts + 1 := by
  have hlook := getOrCreateSession_lookup hres
  unfold handleMCP
  rw [if_neg (by simp [hpost])]
  simp only [hres, hdec]
  cases child with
  | writeFail => exact ⟨rfl, rfl, rfl, rfl, rfl, rfl, hlook, rfl⟩
  | readFail => exact ⟨rfl, rfl, rfl, rfl, rfl, rfl, hlook, rfl⟩
  | reply l =>
    have hl : goDecodeResponse l = none := hfail
    simp only [SendRequest, hl]
    simp [hlook]

/-- Witness for C6: existing session, valid body, read failure. -/
theorem claim6_witness :
    (handleMCP true ChildBehavior.readFail
        { table := [("default", 4)], nextSid := 5, spawned := 1, closed := [],
          writes := [], writeAttempts := 0 }
        { method := "POST", sessionHeader := "",
          body := ("\x7b\"jsonrpc\":\"2.0\",\"method\":\"m\"\x7d").data }).2.status = 500 ∧
    (handleMCP true ChildBehavior.readFail
        { table := [("default", 4)], nextSid := 5, spawned := 1, closed := [],
          writes := [], writeAttempts := 0 }
        { method := "POST", sessionHeader := "",
          body := ("\x7b\"jsonrpc\":\"2.0\",\"method\":\"m\"\x7d").data }).2.body =
      ("MCP request failed\n").data ∧
    (handleMCP true ChildBehavior.readFail
        { table := [("default", 4)], nextSid := 5, spawned := 1, closed := [],
          writes := [], writeAttempts := 0 }
        { method := "POST", sessionHeader := "",
          body := ("\x7b\"jsonrpc\":\"2.0\",\"method\":\"m\"\x7d").data }).1.table =
      [("default", 4)] ∧
    (handleMCP true ChildBehavior.readFail
        { table := [("default", 4)], nextSid := 5, spawned := 1, closed := [],
          writes := [], writeAttempts := 0 }
        { method := "POST", sessionHeader := "",
          body := ("\x7b\"jsonrpc\":\"2.0\",\"method\":\"m\"\x7d").data }).1.closed = [] ∧
    (handleMCP true ChildBehavior.readFail
        { table := [("default", 4)], nextSid := 5, spawned := 1, closed := [],
          writes := [], writeAttempts := 0 }
        { method := "POST", sessionHeader := "",
          body := ("\x7b\"jsonrpc\":\"2.0\",\"method\":\"m\"\x7d").data }).1.spawned = 1 ∧
    (handleMCP true ChildBehavior.readFail
        { table := [("default", 4)], nextSid := 5, spawned := 1, closed := [],
          writes := [], writeAttempts := 0 }
        { method := "POST", sessionHeader := "",
          body := ("\x7b\"jsonrpc\":\"2.0\",\"method\":\"m\"\x7d").data }).1.nextSid = 5 ∧
    tlookup (handleMCP true ChildBehavior.readFail
        { table := [("default", 4)], nextSid := 5, spawned := 1, closed := [],
          writes := [], writeAttempts := 0 }
        { method := "POST", sessionHeader := "",
          body := ("\x7b\"jsonrpc\":\"2.0\",\"method\":\"m\"\x7d").data }).1.table
      "default" = some 4 ∧
    (handleMCP true ChildBehavior.readFail
        { table := [("default", 4)], nextSid := 5, spawned := 1, closed := [],
          writes := [], writeAttempts := 0 }
        { method := "POST", sessionHeader := "",
          body := ("\x7b\"jsonrpc\":\"2.0\",\"method\":\"m\"\x7d").data }).1.writeAttempts = 1 :=
  claim6_thm true ChildBehavior.readFail
    { table := [("default", 4)], nextSid := 5, spawned := 1, closed := [],
      writes := [], writeAttempts := 0 }
    { table := [("default", 4)], nextSid := 5, spawned := 1, closed := [],
      writes := [], writeAttempts := 0 }
    4
    { method := "POST", sessionHeader := "",
      body := ("\x7b\"jsonrpc\":\"2.0\",\"method\":\"m\"\x7d").data }
    { jsonrpc := "2.0", id := none, method := "m", params := none }
    []
    (by rfl) (by rfl) (by rfl) trivial

/-- Counterexample to claim C3 as stated: the correlation id is not
round-tripped byte-for-byte, and absence is not distinguished from
explicit null.  Here the child echoes an envelope carrying an explicit
`"id":null`; the decoded `interface\x7b\x7d` field is nil, and `omitempty`
then drops the member entirely, so the HTTP caller receives an envelope
with no id member at all — not the id the child echoed. -/
theorem claim3_counterexample :
    (handleMCP true
        (ChildBehavior.reply
          (("\x7b\"jsonrpc\":\"2.0\",\"id\":null,\"result\":\x7b\x7d\x7d\n").data))
        { table := [("default", 2)], nextSid := 3, spawned := 1, closed := [],
          writes := [], writeAttempts := 0 }
        { method := "POST", sessionHeader := "",
          body := ("\x7b\"jsonrpc\":\"2.0\",\"id\":null,\"method\":\"m\"\x7d").data }).2 =
      { status := 200,
        body := ("\x7b\"jsonrpc\":\"2.0\",\"result\":\x7b\x7d\x7d\n").data } ∧
    infixB (("\"id\"").data)
      (("\x7b\"jsonrpc\":\"2.0\",\"id\":null,\"result\":\x7b\x7d\x7d\n").data) = true ∧
    infixB (("\"id\"").data)
      (("\x7b\"jsonrpc\":\"2.0\",\"result\":\x7b\x7d\x7d\n").data) = false :=
  ⟨rfl, rfl, rfl⟩

/-- Claim C3, amended: for every valid request envelope and every child
reply that decodes, the HTTP response body is exactly the re-encoded
response envelope, whose id member equals the decoded id value — so a
present, non-null id is echoed to the caller as a JSON value (`resp.id =
some v` gives an `"id": v` member) — but an explicit null id is
conflated with an absent id (`resp.id = none` gives no id member), on
the request side as well; the round trip is value-level, not
byte-level. -/
theorem claim3_thm (spawnOk : Bool) (st st1 : HState) (s : Nat)
    (rq : HttpReq) (req : MCPRequest) (rest : List Char) (l : List Char)
    (resp : MCPResponse)
    (hpost : rq.method = "POST")
    (hres : getOrCreateSession spawnOk st
        (if rq.sessionHeader = "" then "default" else rq.sessionHeader) =
        some (st1, s))
    (hdec : goDecodeRequest rq.body = some (req, rest))
    (hresp : goDecodeResponse l = some resp) :
    (handleMCP spawnOk (ChildBehavior.reply l) st rq).2 =
      { status := 200, body := encodeMCPResponseBody resp } ∧
    objMember (respToJson resp) "id" = resp.id ∧
    objMember (reqToJson req) "id" = req.id := by
  unfold handleMCP
  rw [if_neg (by simp [hpost])]
  simp only [hres, hdec, SendRequest, hresp]
  exact ⟨by simp, respToJson_id resp, reqToJson_id req⟩

/-- Witness for the amended C3: a numeric id is echoed through. -/
theorem claim3_witness :
    (handleMCP true
        (ChildBehavior.reply
          (("\x7b\"jsonrpc\":\"2.0\",\"id\":9,\"result\":true\x7d\n").data))
        { table := [("default", 2)], nextSid := 3, spawned := 1, closed := [],
          writes := [], writeAttempts := 0 }
        { method := "POST", sessionHeader := "",
          body := ("\x7b\"jsonrpc\":\"2.0\",\"id\":9,\"method\":\"m\"\x7d").data }).2 =
      { status := 200,
        body := encodeMCPResponseBody
          { jsonrpc := "2.0", id := some (Json.num 9),
            result := some (Json.bool true, ('t' :: 'r' :: 'u' :: 'e' :: [])),
            error := none } } ∧
    objMember (respToJson
        { jsonrpc := "2.0", id := some (Json.num 9),
          result := some (Json.bool true, ('t' :: 'r' :: 'u' :: 'e' :: [])),
          error := none }) "id" =
      (MCPResponse.id
        { jsonrpc := "2.0", id := some (Json.num 9),
          result := some (Json.bool true, ('t' :: 'r' :: 'u' :: 'e' :: [])),
          error := none }) ∧
    objMember (reqToJson
        { jsonrpc := "2.0", id := some (Json.num 9), method := "m",
          params := none }) "id" =
      (MCPRequest.id
        { jsonrpc := "2.0", id := some (Json.num 9), method := "m",
          params := none }) :=
  claim3_thm true
    { table := [("default", 2)], nextSid := 3, spawned := 1, closed := [],
      writes := [], writeAttempts := 0 }
    { table := [("default", 2)], nextSid := 3, spawned := 1, closed := [],
      writes := [], writeAttempts := 0 }
    2
    { method := "POST", sessionHeader := "",
      body := ("\x7b\"jsonrpc\":\"2.0\",\"id\":9,\"method\":\"m\"\x7d").data }
    { jsonrpc := "2.0", id := some (Json.num 9), method := "m", params := none }
    []
    (("\x7b\"jsonrpc\":\"2.0\",\"id\":9,\"result\":true\x7d\n").data)
    { jsonrpc := "2.0", id := some (Json.num 9),
      result := some (Json.bool true, ('t' :: 'r' :: 'u' :: 'e' :: [])),
      error := none }
    (by rfl) (by rfl) (by rfl) (by rfl)

/-- Counterexample to claim C10 as stated: the params value is not
forwarded byte-for-byte.  The inbound body carries the params bytes
with interior whitespace; the line written to the child is the compact
re-encoding, and the received bytes do not occur in it. -/
theorem claim10_counterexample :
    (handleMCP true ChildBehavior.readFail
        { table := [("default", 2)], nextSid := 3, spawned := 1, closed := [],
          writes := [], writeAttempts := 0 }
        { method := "POST", sessionHeader := "",
          body := ("\x7b\"jsonrpc\":\"2.0\",\"method\":\"m\",\"params\":\x7b \"a\" : 1 \x7d\x7d").data }).1.writes =
      [(2, ("\x7b\"jsonrpc\":\"2.0\",\"method\":\"m\",\"params\":\x7b\"a\":1\x7d\x7d\n").data)] ∧
    (goDecodeRequest
        (("\x7b\"jsonrpc\":\"2.0\",\"method\":\"m\",\"params\":\x7b \"a\" : 1 \x7d\x7d").data)).map
        (fun p => p.1.params.map Prod.snd) =
      some (some (("\x7b \"a\" : 1 \x7d").data)) ∧
    infixB (("\x7b \"a\" : 1 \x7d").data)
      (("\x7b\"jsonrpc\":\"2.0\",\"method\":\"m\",\"params\":\x7b\"a\":1\x7d\x7d\n").data) = false :=
  ⟨rfl, rfl, rfl⟩

/-- Claim C10, amended: for every request forwarded to the child, the
line written to stdin is the compact re-encoding of the decoded
envelope: its top-level keys are among the four known envelope fields
(any other top-level field of the inbound body has been dropped), and
its params member is the parsed value of the received params bytes —
JSON-value-equal to what was received, but compactly re-encoded rather
than byte-for-byte. -/
theorem claim10_thm (spawnOk : Bool) (child : ChildBehavior) (st st1 : HState)
    (s : Nat) (rq : HttpReq) (req : MCPRequest) (rest : List Char)
    (hpost : rq.method = "POST")
    (hres : getOrCreateSession spawnOk st
        (if rq.sessionHeader = "" then "default" else rq.sessionHeader) =
        some (st1, s))
    (hdec : goDecodeRequest rq.body = some (req, rest))
    (hw : child ≠ ChildBehavior.writeFail) :
    (handleMCP spawnOk child st rq).1.writes =
      st1.writes ++ [(s, encodeMCPRequestLine req)] ∧
    encodeMCPRequestLine req = encodeJson (reqToJson req) ++ ['\n'] ∧
    objKeys (reqToJson req) ⊆ ("jsonrpc" :: "id" :: "method" :: "params" :: []) ∧
    objMember (reqToJson req) "params" = req.params.map Prod.fst := by
  refine ⟨?_, rfl, reqToJson_keys req, reqToJson_params req⟩
  unfold handleMCP
  rw [if_neg (by simp [hpost])]
  simp only [hres, hdec]
  cases child with
  | writeFail => exact absurd rfl hw
  | readFail => rfl
  | reply l =>
    simp only [SendRequest]
    cases hgl : goDecodeResponse l <;> simp [hgl]

/-- Witness for the amended C10: a body with an unknown extra top-level
field and spaced params. -/
theorem claim10_witness :
    (handleMCP true ChildBehavior.readFail
        { table := [("default", 2)], nextSid := 3, spawned := 1, closed := [],
          writes := [], writeAttempts := 0 }
        { method := "POST", sessionHeader := "",
          body := ("\x7b\"jsonrpc\":\"2.0\",\"id\":1,\"method\":\"m\",\"params\":[1, 2],\"extra\":7\x7d").data }).1.writes =
      [] ++ [(2, encodeMCPRequestLine
        { jsonrpc := "2.0", id := some (Json.num 1), method := "m",
          params := some (Json.arr (Json.num 1 :: Json.num 2 :: []),
                          ('[' :: '1' :: ',' :: ' ' :: '2' :: ']' :: [])) })] ∧
    encodeMCPRequestLine
        { jsonrpc := "2.0", id := some (Json.num 1), method := "m",
          params := some (Json.arr (Json.num 1 :: Json.num 2 :: []),
                          ('[' :: '1' :: ',' :: ' ' :: '2' :: ']' :: [])) } =
      encodeJson (reqToJson
        { jsonrpc := "2.0", id := some (Json.num 1), method := "m",
          params := some (Json.arr (Json.num 1 :: Json.num 2 :: []),
                          ('[' :: '1' :: ',' :: ' ' :: '2' :: ']' :: [])) }) ++ ['\n'] ∧
    objKeys (reqToJson
        { jsonrpc := "2.0", id := some (Json.num 1), method := "m",
          params := some (Json.arr (Json.num 1 :: Json.num 2 :: []),
                          ('[' :: '1' :: ',' :: ' ' :: '2' :: ']' :: [])) }) ⊆
      ("jsonrpc" :: "id" :: "method" :: "params" :: []) ∧
    objMember (reqToJson
        { jsonrpc := "2.0", id := some (Json.num 1), method := "m",
          params := some (Json.arr (Json.num 1 :: Json.num 2 :: []),
                          ('[' :: '1' :: ',' :: ' ' :: '2' :: ']' :: [])) }) "params" =
      (MCPRequest.params
        { jsonrpc := "2.0", id := some (Json.num 1), method := "m",
          params := some (Json.arr (Json.num 1 :: Json.num 2 :: []),
                          ('[' :: '1' :: ',' :: ' ' :: '2' :: ']' :: [])) }).map Prod.fst :=
  claim10_thm true ChildBehavior.readFail
    { table := [("default", 2)], nextSid := 3, spawned := 1, closed := [],
      writes := [], writeAttempts := 0 }
    { table := [("default", 2)], nextSid := 3, spawned := 1, closed := [],
      writes := [], writeAttempts := 0 }
    2
    { method := "POST", sessionHeader := "",
      body := ("\x7b\"jsonrpc\":\"2.0\",\"id\":1,\"method\":\"m\",\"params\":[1, 2],\"extra\":7\x7d").data }
    { jsonrpc := "2.0", id := some (Json.num 1), method := "m",
      params := some (Json.arr (Json.num 1 :: Json.num 2 :: []),
                      ('[' :: '1' :: ',' :: ' ' :: '2' :: ']' :: [])) }
    []
    (by rfl) (by rfl) (by rfl) (by simp)

/-! ## Small-step interleaving model of the registry

`getOrCreateSession` runs `sync.Map.Load`, then (on a miss)
`NewMCPSession`, then `sync.Map.Store`, then launches the eviction
goroutine (`time.Sleep(30 * time.Minute); Delete; Close`) — with no lock
around the load/create/store sequence.  Each resolver (one per inbound
request) and each eviction goroutine is a thread; the actions below are
the atomic steps they take, and a schedule is an arbitrary interleaving.
Time is in minutes; `advance` lets one minute pass. -/

/-- Lifecycle phase of one session's record: created but not yet stored,
stored with the eviction timer armed, key deleted by the fired timer,
closed. -/
inductive TPhase : Type where
  | preArm : TPhase
  | armed : TPhase
  | removed : TPhase
  | closedT : TPhase
deriving DecidableEq

/-- One session object (one `MCPSession` / child process) together with
its eviction-timer bookkeeping. -/
structure SessRec where
  sid : Nat
  key : String
  armedAt : Nat
  deadline : Nat
  firedAt : Option Nat
  phase : TPhase
deriving DecidableEq

/-- Program counter of one in-flight `getOrCreateSession` call. -/
inductive RPc : Type where
  | start : RPc
  | missed : RPc
  | created (sid : Nat) : RPc
  | done (sid : Nat) : RPc
deriving DecidableEq

/-- One resolver thread: the key it resolves and where it is. -/
structure Resolver where
  key : String
  pc : RPc
deriving DecidableEq

/-- Global state of the registry model. -/
structure RegState where
  table : List (String × Nat)
  recs : List SessRec
  resolvers : Nat → Option Resolver
  nextSid : Nat
  spawned : Nat
  now : Nat

/-- Initial state: one resolver per requested key, empty registry. -/
def regInit (keys : List String) : RegState :=
  { table := [], recs := [],
    resolvers := fun t => (keys[t]?).map (fun k => { key := k, pc := RPc.start }),
    nextSid := 0, spawned := 0, now := 0 }

/-- Atomic actions: the three steps of `getOrCreateSession`
(`Load`, `NewMCPSession`, `Store`+launch of the eviction goroutine), the
two steps of the eviction goroutine once its sleep has elapsed
(`Delete`, then `Close`), and the passing of one minute. -/
inductive RAct : Type where
  | load (tid : Nat) : RAct
  | create (tid : Nat) : RAct
  | store (tid : Nat) : RAct
  | advance : RAct
  | timerFire (sid : Nat) : RAct
  | timerClose (sid : Nat) : RAct
deriving DecidableEq

/-- Find the record of a session id. -/
def findRec (recs : List SessRec) (sid : Nat) : Option SessRec :=
  recs.find? (fun r => r.sid == sid)

/-- Update the record of a session id. -/
def updRec (recs : List SessRec) (sid : Nat) (f : SessRec → SessRec) :
    List SessRec :=
  recs.map (fun r => if r.sid = sid then f r else r)

/-- Arm a session's eviction timer (the `Store` step launches the
goroutine that sleeps thirty minutes from now). -/
def armRec (now : Nat) (r : SessRec) : SessRec :=
  { r with phase := TPhase.armed, armedAt := now, deadline := now + 30 }

/-- The timer fired at time `now` and deleted the key. -/
def fireRec (now : Nat) (r : SessRec) : SessRec :=
  { r with phase := TPhase.removed, firedAt := some now }

/-- The eviction goroutine closed the session. -/
def closeRec (r : SessRec) : SessRec :=
  { r with phase := TPhase.closedT }

/-- One step of the registry model; an action whose premise does not
hold (wrong pc, timer not yet expired, ...) is a no-op. -/
def regStep (s : RegState) : RAct → RegState
  | .load tid =>
    match s.resolvers tid with
    | some rv =>
      if rv.pc = RPc.start then
        match tlookup s.table rv.key with
        | some sid =>
          { s with resolvers := fun t =>
              if t = tid then some { rv with pc := RPc.done sid }
              else s.resolvers t }
        | none =>
          { s with resolvers := fun t =>
              if t = tid then some { rv with pc := RPc.missed }
              else s.resolvers t }
      else s
    | none => s
  | .create tid =>
    match s.resolvers tid with
    | some rv =>
      if rv.pc = RPc.missed then
        { s with
            recs := s.recs ++ [{ sid := s.nextSid, key := rv.key,
                                 armedAt := 0, deadline := 0,
                                 firedAt := none, phase := TPhase.preArm }],
            nextSid := s.nextSid + 1,
            spawned := s.spawned + 1,
            resolvers := fun t =>
              if t = tid then some { rv with pc := RPc.created s.nextSid }
              else s.resolvers t }
      else s
    | none => s
  | .store tid =>
    match s.resolvers tid with
    | some rv =>
      match rv.pc with
      | RPc.created sid =>
        { s with
            table := tinsert s.table rv.key sid,
            recs := updRec s.recs sid (armRec s.now),
            resolvers := fun t =>
              if t = tid then some { rv with pc := RPc.done sid }
              else s.resolvers t }
      | _ => s
    | none => s
  | .advance => { s with now := s.now + 1 }
  | .timerFire sid =>
    match findRec s.recs sid with
    | some r =>
      if r.phase = TPhase.armed ∧ r.deadline ≤ s.now then
        { s with
            table := tdelete s.table r.key,
            recs := updRec s.recs sid (fireRec s.now) }
      else s
    | none => s
  | .timerClose sid =>
    match findRec s.recs sid with
    | some r =>
      if r.phase = TPhase.removed then
        { s with recs := updRec s.recs sid closeRec }
      else s
    | none => s

/-- Run a schedule from a state. -/
def regRun (s : RegState) (acts : List RAct) : RegState :=
  acts.foldl regStep s

/-- Claim C2 evaluated at the failing interleaving: two concurrent
`getOrCreateSession` calls for the same previously-unseen key, each
observing the `Load` miss before either `Store` runs, spawn two child
processes; the second `Store` wins the registry slot and the first
session is orphaned — still armed, never closed, unreachable.  The
claim (and the spec's concurrency requirement) demand exactly one
session; the code's non-atomic check-then-create violates it. -/
theorem claim2_thm :
    (regRun (regInit ("default" :: "default" :: []))
        (RAct.load 0 :: RAct.load 1 :: RAct.create 0 :: RAct.create 1 ::
         RAct.store 0 :: RAct.store 1 :: [])).spawned = 2 ∧
    (regRun (regInit ("default" :: "default" :: []))
        (RAct.load 0 :: RAct.load 1 :: RAct.create 0 :: RAct.create 1 ::
         RAct.store 0 :: RAct.store 1 :: [])).table = [("default", 1)] ∧
    ((regRun (regInit ("default" :: "default" :: []))
        (RAct.load 0 :: RAct.load 1 :: RAct.create 0 :: RAct.create 1 ::
         RAct.store 0 :: RAct.store 1 :: [])).recs.map
      (fun r => (r.sid, r.phase))) =
      ((0, TPhase.armed) :: (1, TPhase.armed) :: []) :=
  ⟨rfl, rfl, rfl⟩

/-! ## Registry invariants for the eviction-timer claim -/

theorem tlookup_tdelete_self (t : List (String × Nat)) (k : String) :
    tlookup (tdelete t k) k = none := by
  induction t with
  | nil => rfl
  | cons kv rest ih =>
    obtain ⟨k2, v2⟩ := kv
    by_cases h : k2 = k
    · simpa [tdelete, h] using ih
    · simpa [tdelete, h, tlookup] using ih

theorem tlookup_tdelete_ne (t : List (String × Nat)) (k k' : String)
    (h : k' ≠ k) : tlookup (tdelete t k) k' = tlookup t k' := by
  induction t with
  | nil => rfl
  | cons kv rest ih =>
    obtain ⟨k2, v2⟩ := kv
    by_cases h2 : k2 = k
    · subst h2
      have h4 : ¬ (k2 = k') := fun hh => h hh.symm
      simp [tdelete, tlookup, h4, ih]
    · by_cases h3 : k2 = k'
      · simp [tdelete, h2, tlookup, h3, h]
      · simp [tdelete, h2, tlookup, h3, ih]

theorem tlookup_tinsert_ne (t : List (String × Nat)) (k k' : String) (v : Nat)
    (h : k' ≠ k) : tlookup (tinsert t k v) k' = tlookup t k' := by
  induction t with
  | nil => simp [tinsert, tlookup, Ne.symm h]
  | cons kv rest ih =>
    obtain ⟨k2, v2⟩ := kv
    by_cases h2 : k2 = k
    · subst h2
      simp [tinsert, tlookup, Ne.symm h]
    · simp [tinsert, h2, tlookup, ih]

theorem mem_updRec {recs : List SessRec} {sid : Nat} {f : SessRec → SessRec}
    {r' : SessRec} (h : r' ∈ updRec recs sid f) :
    ∃ r ∈ recs, r' = if r.sid = sid then f r else r := by
  simpa [updRec, eq_comm] using List.mem_map.mp h

theorem updRec_map_sid {recs : List SessRec} {sid : Nat} {f : SessRec → SessRec}
    (hf : ∀ r, (f r).sid = r.sid) :
    (updRec recs sid f).map SessRec.sid = recs.map SessRec.sid := by
  simp only [updRec, List.map_map]
  apply List.map_congr_left
  intro r _
  by_cases h : r.sid = sid <;> simp [h, hf]

theorem findRec_mem {recs : List SessRec} {sid : Nat} {r : SessRec}
    (h : findRec recs sid = some r) : r ∈ recs ∧ r.sid = sid := by
  refine ⟨List.mem_of_find?_eq_some h, ?_⟩
  have := List.find?_some h
  simpa using this

theorem recs_inj {recs : List SessRec}
    (h : (recs.map SessRec.sid).Nodup) {r1 r2 : SessRec}
    (h1 : r1 ∈ recs) (h2 : r2 ∈ recs) (hs : r1.sid = r2.sid) : r1 = r2 :=
  List.inj_on_of_nodup_map h h1 h2 hs

/-- Global invariant of the registry model, preserved by every step:
session ids are fresh and unique; once armed, a timer's deadline is
exactly thirty minutes after its arming time and neither ever changes
phase backwards; a fire timestamp is at or after the deadline; a fired
session is no longer registered under its key; a closed session has
fired first; an in-flight `created` pc points at a unique pre-arm
record. -/
structure RegInv (s : RegState) : Prop where
  sidBound : ∀ r ∈ s.recs, r.sid < s.nextSid
  sidNodup : (s.recs.map SessRec.sid).Nodup
  deadlineEq : ∀ r ∈ s.recs, r.phase ≠ TPhase.preArm → r.deadline = r.armedAt + 30
  firedLate : ∀ r ∈ s.recs, ∀ t, r.firedAt = some t →
    r.phase ≠ TPhase.preArm ∧ r.deadline ≤ t
  removedOut : ∀ r ∈ s.recs,
    r.phase = TPhase.removed ∨ r.phase = TPhase.closedT →
    tlookup s.table r.key ≠ some r.sid
  firedSome : ∀ r ∈ s.recs,
    r.phase = TPhase.removed ∨ r.phase = TPhase.closedT →
    r.firedAt.isSome = true
  firedPhase : ∀ r ∈ s.recs, r.firedAt.isSome = true →
    r.phase = TPhase.removed ∨ r.phase = TPhase.closedT
  createdLink : ∀ tid rv sid, s.resolvers tid = some rv →
    rv.pc = RPc.created sid →
    ∃ r ∈ s.recs, r.sid = sid ∧ r.key = rv.key ∧ r.phase = TPhase.preArm
  createdDistinct : ∀ t1 t2 rv1 rv2 sid, t1 ≠ t2 →
    s.resolvers t1 = some rv1 → s.resolvers t2 = some rv2 →
    rv1.pc = RPc.created sid → rv2.pc ≠ RPc.created sid

theorem regInv_init (keys : List String) : RegInv (regInit keys) := by
  refine ⟨?_, ?_, ?_, ?_, ?_, ?_, ?_, ?_, ?_⟩ <;> simp [regInit]
  · intro tid rv sid x hx hrv
    intro hpc
    rw [← hrv] at hpc
    simp at hpc
  · intro t1 t2 rv1 rv2 sid ht x1 hx1 hrv1 x2 hx2 hrv2 hpc
    rw [← hrv1] at hpc
    simp at hpc

/-- Replacing one resolver's pc by a non-`created` pc preserves the
invariant (recs and table untouched). -/
theorem regInv_setpc (s : RegState) (tid : Nat) (rv : Resolver) (pc' : RPc)
    (h : RegInv s) (hnc : ∀ sid, pc' ≠ RPc.created sid) :
    RegInv { s with resolvers := fun t =>
      if t = tid then some { rv with pc := pc' } else s.resolvers t } := by
  obtain ⟨h1, h2, h3, h4, h5, h6, h9, h7, h8⟩ := h
  refine ⟨h1, h2, h3, h4, h5, h6, h9, ?_, ?_⟩
  · intro tid' rv' sid hres' hpc'
    dsimp only at hres' ⊢
    by_cases ht : tid' = tid
    · rw [if_pos ht] at hres'
      cases hres'
      exact absurd hpc' (hnc sid)
    · rw [if_neg ht] at hres'
      exact h7 tid' rv' sid hres' hpc'
  · intro t1 t2 rv1 rv2 sid hne hres1 hres2 hpc1
    dsimp only at hres1 hres2
    by_cases ht1 : t1 = tid
    · rw [if_pos ht1] at hres1
      cases hres1
      exact absurd hpc1 (hnc sid)
    · rw [if_neg ht1] at hres1
      by_cases ht2 : t2 = tid
      · rw [if_pos ht2] at hres2
        cases hres2
        intro hpc2
        exact (hnc sid) hpc2
      · rw [if_neg ht2] at hres2
        exact h8 t1 t2 rv1 rv2 sid hne hres1 hres2 hpc1

theorem regInv_load (s : RegState) (tid : Nat) (h : RegInv s) :
    RegInv (regStep s (RAct.load tid)) := by
  simp only [regStep]
  cases hres : s.resolvers tid with
  | none => exact h
  | some rv =>
    dsimp only
    by_cases hpc : rv.pc = RPc.start
    · rw [if_pos hpc]
      cases hlk : tlookup s.table rv.key with
      | some sid => exact regInv_setpc s tid rv (RPc.done sid) h (by intro _ hh; cases hh)
      | none => exact regInv_setpc s tid rv RPc.missed h (by intro _ hh; cases hh)
    · rw [if_neg hpc]
      exact h

theorem regInv_advance (s : RegState) (h : RegInv s) :
    RegInv (regStep s RAct.advance) := by
  obtain ⟨h1, h2, h3, h4, h5, h6, h9, h7, h8⟩ := h
  exact ⟨h1, h2, h3, h4, h5, h6, h9, h7, h8⟩

theorem regInv_create (s : RegState) (tid : Nat) (h : RegInv s) :
    RegInv (regStep s (RAct.create tid)) := by
  simp only [regStep]
  cases hres : s.resolvers tid with
  | none => exact h
  | some rv =>
    dsimp only
    by_cases hpc : rv.pc = RPc.missed
    · rw [if_pos hpc]
      obtain ⟨h1, h2, h3, h4, h5, h6, h9, h7, h8⟩ := h
      refine ⟨?_, ?_, ?_, ?_, ?_, ?_, ?_, ?_, ?_⟩ <;> dsimp only
      · intro r hr
        rcases List.mem_append.mp hr with hr | hr
        · exact Nat.lt_succ_of_lt (h1 r hr)
        · rw [List.mem_singleton.mp hr]
          exact Nat.lt_succ_self _
      · rw [List.map_append]
        refine List.Nodup.append h2 (by simp) ?_
        intro x hx hx2
        simp only [List.map_cons, List.map_nil, List.mem_singleton] at hx2
        subst hx2
        rcases List.mem_map.mp hx with ⟨r, hr, hsid⟩
        exact absurd (hsid ▸ h1 r hr) (Nat.lt_irrefl _)
      · intro r hr hph
        rcases List.mem_append.mp hr with hr | hr
        · exact h3 r hr hph
        · rw [List.mem_singleton.mp hr] at hph
          exact absurd rfl hph
      · intro r hr t hft
        rcases List.mem_append.mp hr with hr | hr
        · exact h4 r hr t hft
        · rw [List.mem_singleton.mp hr] at hft
          cases hft
      · intro r hr hph
        rcases List.mem_append.mp hr with hr | hr
        · exact h5 r hr hph
        · rw [List.mem_singleton.mp hr] at hph
          rcases hph with hph | hph <;> cases hph
      · intro r hr hph
        rcases List.mem_append.mp hr with hr | hr
        · exact h6 r hr hph
        · rw [List.mem_singleton.mp hr] at hph
          rcases hph with hph | hph <;> cases hph
      · intro r hr hiso
        rcases List.mem_append.mp hr with hr | hr
        · exact h9 r hr hiso
        · rw [List.mem_singleton.mp hr] at hiso
          simp at hiso
      · intro tid' rv' sid hres' hpc'
        by_cases ht : tid' = tid
        · rw [if_pos ht] at hres'
          cases hres'
          cases hpc'
          exact ⟨{ sid := s.nextSid, key := rv.key, armedAt := 0, deadline := 0,
                   firedAt := none, phase := TPhase.preArm },
                 List.mem_append_right _ (List.mem_singleton.mpr rfl),
                 rfl, rfl, rfl⟩
        · rw [if_neg ht] at hres'
          rcases h7 tid' rv' sid hres' hpc' with ⟨r, hr, hprops⟩
          exact ⟨r, List.mem_append_left _ hr, hprops⟩
      · intro t1 t2 rv1 rv2 sid hne hres1 hres2 hpc1 hpc2
        by_cases ht1 : t1 = tid
        · rw [if_pos ht1] at hres1
          cases hres1
          cases hpc1
          have ht2 : ¬ t2 = tid := fun hh => hne (ht1.trans hh.symm)
          rw [if_neg ht2] at hres2
          rcases h7 t2 rv2 s.nextSid hres2 hpc2 with ⟨r, hr, hsid, _⟩
          exact absurd (hsid ▸ h1 r hr) (Nat.lt_irrefl _)
        · rw [if_neg ht1] at hres1
          rcases h7 t1 rv1 sid hres1 hpc1 with ⟨r, hr, hsid, _⟩
          by_cases ht2 : t2 = tid
          · rw [if_pos ht2] at hres2
            cases hres2
            cases hpc2
            exact absurd (hsid ▸ h1 r hr) (Nat.lt_irrefl _)
          · rw [if_neg ht2] at hres2
            exact h8 t1 t2 rv1 rv2 sid hne hres1 hres2 hpc1 hpc2
    · rw [if_neg hpc]
      exact h

theorem mem_updRec_of_mem {recs : List SessRec} {sid : Nat}
    {f : SessRec → SessRec} {r : SessRec} (hr : r ∈ recs) :
    (if r.sid = sid then f r else r) ∈ updRec recs sid f :=
  List.mem_map_of_mem _ hr

theorem regInv_store (s : RegState) (tid : Nat) (h : RegInv s) :
    RegInv (regStep s (RAct.store tid)) := by
  simp only [regStep]
  cases hres : s.resolvers tid with
  | none => exact h
  | some rv =>
    dsimp only
    cases hpcv : rv.pc with
    | start => exact h
    | missed => exact h
    | done sid => exact h
    | created sid =>
      obtain ⟨h1, h2, h3, h4, h5, h6, h9, h7, h8⟩ := h
      obtain ⟨rec0, hrec0, hrec0sid, hrec0key, hrec0ph⟩ :=
        h7 tid rv sid hres hpcv
      have hf : ∀ r : SessRec, (armRec s.now r).sid = r.sid := fun _ => rfl
      refine ⟨?_, ?_, ?_, ?_, ?_, ?_, ?_, ?_, ?_⟩ <;> dsimp only
      · intro r' hr'
        rcases mem_updRec hr' with ⟨r, hr, hr'eq⟩
        subst hr'eq
        by_cases hs : r.sid = sid
        · rw [if_pos hs]
          exact h1 r hr
        · rw [if_neg hs]
          exact h1 r hr
      · rw [updRec_map_sid hf]
        exact h2
      · intro r' hr' hph
        rcases mem_updRec hr' with ⟨r, hr, hr'eq⟩
        subst hr'eq
        by_cases hs : r.sid = sid
        · rw [if_pos hs]
          rfl
        · rw [if_neg hs] at hph ⊢
          exact h3 r hr hph
      · intro r' hr' t hft
        rcases mem_updRec hr' with ⟨r, hr, hr'eq⟩
        subst hr'eq
        by_cases hs : r.sid = sid
        · rw [if_pos hs] at hft
          have hreq : r = rec0 := recs_inj h2 hr hrec0 (hs.trans hrec0sid.symm)
          have hphr : r.phase = TPhase.preArm := by rw [hreq, hrec0ph]
          have hft' : r.firedAt = some t := hft
          exact absurd hphr (h4 r hr t hft').1
        · rw [if_neg hs] at hft ⊢
          exact h4 r hr t hft
      · intro r' hr' hph
        rcases mem_updRec hr' with ⟨r, hr, hr'eq⟩
        subst hr'eq
        by_cases hs : r.sid = sid
        · rw [if_pos hs] at hph
          rcases hph with hph | hph <;> cases hph
        · rw [if_neg hs] at hph ⊢
          by_cases hk : r.key = rv.key
          · rw [hk, tlookup_tinsert_self]
            intro hcontra
            cases hcontra
            exact hs rfl
          · rw [tlookup_tinsert_ne _ _ _ _ hk]
            exact h5 r hr hph
      · intro r' hr' hph
        rcases mem_updRec hr' with ⟨r, hr, hr'eq⟩
        subst hr'eq
        by_cases hs : r.sid = sid
        · rw [if_pos hs] at hph
          rcases hph with hph | hph <;> cases hph
        · rw [if_neg hs] at hph ⊢
          exact h6 r hr hph
      · intro r' hr' hiso
        rcases mem_updRec hr' with ⟨r, hr, hr'eq⟩
        subst hr'eq
        by_cases hs : r.sid = sid
        · rw [if_pos hs] at hiso
          have hreq : r = rec0 := recs_inj h2 hr hrec0 (hs.trans hrec0sid.symm)
          have hiso' : r.firedAt.isSome = true := hiso
          rcases h9 r hr hiso' with hph | hph <;>
            · rw [hreq, hrec0ph] at hph
              cases hph
        · rw [if_neg hs] at hiso ⊢
          exact h9 r hr hiso
      · intro tid' rv' sid2 hres' hpc'
        by_cases ht : tid' = tid
        · rw [if_pos ht] at hres'
          cases hres'
          cases hpc'
        · rw [if_neg ht] at hres'
          obtain ⟨r, hr, hrsid, hrkey, hrph⟩ := h7 tid' rv' sid2 hres' hpc'
          have hsne : sid2 ≠ sid := by
            intro hcontra
            exact h8 tid' tid rv' rv sid2 ht hres' hres hpc'
              (by rw [hpcv, hcontra])
          refine ⟨r, ?_, hrsid, hrkey, hrph⟩
          have hrs : ¬ r.sid = sid := by
            rw [hrsid]
            exact hsne
          have hmem := @mem_updRec_of_mem _ sid (armRec s.now) _ hr
          rw [if_neg hrs] at hmem
          exact hmem
      · intro t1 t2 rv1 rv2 sid2 hne hres1 hres2 hpc1 hpc2
        by_cases ht1 : t1 = tid
        · rw [if_pos ht1] at hres1
          cases hres1
          cases hpc1
        · rw [if_neg ht1] at hres1
          by_cases ht2 : t2 = tid
          · rw [if_pos ht2] at hres2
            cases hres2
            cases hpc2
          · rw [if_neg ht2] at hres2
            exact h8 t1 t2 rv1 rv2 sid2 hne hres1 hres2 hpc1 hpc2

theorem regInv_fire (s : RegState) (sid : Nat) (h : RegInv s) :
    RegInv (regStep s (RAct.timerFire sid)) := by
  simp only [regStep]
  cases hfind : findRec s.recs sid with
  | none => exact h
  | some r0 =>
    dsimp only
    by_cases hcond : r0.phase = TPhase.armed ∧ r0.deadline ≤ s.now
    · rw [if_pos hcond]
      obtain ⟨hph0, hdl0⟩ := hcond
      obtain ⟨hr0mem, hr0sid⟩ := findRec_mem hfind
      obtain ⟨h1, h2, h3, h4, h5, h6, h9, h7, h8⟩ := h
      have hf : ∀ r : SessRec, (fireRec s.now r).sid = r.sid := fun _ => rfl
      refine ⟨?_, ?_, ?_, ?_, ?_, ?_, ?_, ?_, h8⟩ <;> dsimp only
      · intro r' hr'
        rcases mem_updRec hr' with ⟨r, hr, hr'eq⟩
        subst hr'eq
        by_cases hs : r.sid = sid
        · rw [if_pos hs]
          exact h1 r hr
        · rw [if_neg hs]
          exact h1 r hr
      · rw [updRec_map_sid hf]
        exact h2
      · intro r' hr' hph
        rcases mem_updRec hr' with ⟨r, hr, hr'eq⟩
        subst hr'eq
        by_cases hs : r.sid = sid
        · rw [if_pos hs]
          have hreq : r = r0 := recs_inj h2 hr hr0mem (hs.trans hr0sid.symm)
          have : r.phase ≠ TPhase.preArm := by
            rw [hreq, hph0]
            intro hh
            cases hh
          exact h3 r hr this
        · rw [if_neg hs] at hph ⊢
          exact h3 r hr hph
      · intro r' hr' t hft
        rcases mem_updRec hr' with ⟨r, hr, hr'eq⟩
        subst hr'eq
        by_cases hs : r.sid = sid
        · rw [if_pos hs] at hft ⊢
          have hreq : r = r0 := recs_inj h2 hr hr0mem (hs.trans hr0sid.symm)
          have hft2 : some s.now = some t := hft
          cases hft2
          refine ⟨(by intro hh; cases hh), ?_⟩
          show r.deadline ≤ s.now
          rw [hreq]
          exact hdl0
        · rw [if_neg hs] at hft ⊢
          exact h4 r hr t hft
      · intro r' hr' hph
        rcases mem_updRec hr' with ⟨r, hr, hr'eq⟩
        subst hr'eq
        by_cases hs : r.sid = sid
        · rw [if_pos hs]
          have hreq : r = r0 := recs_inj h2 hr hr0mem (hs.trans hr0sid.symm)
          show tlookup (tdelete s.table r0.key) r.key ≠ some r.sid
          rw [hreq, tlookup_tdelete_self]
          intro hh
          cases hh
        · rw [if_neg hs] at hph ⊢
          by_cases hk : r.key = r0.key
          · rw [hk, tlookup_tdelete_self]
            intro hh
            cases hh
          · rw [tlookup_tdelete_ne _ _ _ hk]
            exact h5 r hr hph
      · intro r' hr' hph
        rcases mem_updRec hr' with ⟨r, hr, hr'eq⟩
        subst hr'eq
        by_cases hs : r.sid = sid
        · rw [if_pos hs]
          rfl
        · rw [if_neg hs] at hph ⊢
          exact h6 r hr hph
      · intro r' hr' hiso
        rcases mem_updRec hr' with ⟨r, hr, hr'eq⟩
        subst hr'eq
        by_cases hs : r.sid = sid
        · rw [if_pos hs]
          exact Or.inl rfl
        · rw [if_neg hs] at hiso ⊢
          exact h9 r hr hiso
      · intro tid' rv' sid2 hres' hpc'
        obtain ⟨r, hr, hrsid, hrkey, hrph⟩ := h7 tid' rv' sid2 hres' hpc'
        have hsne : ¬ r.sid = sid := by
          intro hcontra
          have hreq : r = r0 := recs_inj h2 hr hr0mem (hcontra.trans hr0sid.symm)
          rw [hreq, hph0] at hrph
          cases hrph
        refine ⟨r, ?_, hrsid, hrkey, hrph⟩
        have hmem := @mem_updRec_of_mem _ sid (fireRec s.now) _ hr
        rw [if_neg hsne] at hmem
        exact hmem
    · rw [if_neg hcond]
      exact h

theorem regInv_close (s : RegState) (sid : Nat) (h : RegInv s) :
    RegInv (regStep s (RAct.timerClose sid)) := by
  simp only [regStep]
  cases hfind : findRec s.recs sid with
  | none => exact h
  | some r0 =>
    dsimp only
    by_cases hcond : r0.phase = TPhase.removed
    · rw [if_pos hcond]
      obtain ⟨hr0mem, hr0sid⟩ := findRec_mem hfind
      obtain ⟨h1, h2, h3, h4, h5, h6, h9, h7, h8⟩ := h
      have hf : ∀ r : SessRec, (closeRec r).sid = r.sid := fun _ => rfl
      refine ⟨?_, ?_, ?_, ?_, ?_, ?_, ?_, ?_, h8⟩ <;> dsimp only
      · intro r' hr'
        rcases mem_updRec hr' with ⟨r, hr, hr'eq⟩
        subst hr'eq
        by_cases hs : r.sid = sid
        · rw [if_pos hs]
          exact h1 r hr
        · rw [if_neg hs]
          exact h1 r hr
      · rw [updRec_map_sid hf]
        exact h2
      · intro r' hr' hph
        rcases mem_updRec hr' with ⟨r, hr, hr'eq⟩
        subst hr'eq
        by_cases hs : r.sid = sid
        · rw [if_pos hs]
          have hreq : r = r0 := recs_inj h2 hr hr0mem (hs.trans hr0sid.symm)
          have : r.phase ≠ TPhase.preArm := by
            rw [hreq, hcond]
            intro hh
            cases hh
          exact h3 r hr this
        · rw [if_neg hs] at hph ⊢
          exact h3 r hr hph
      · intro r' hr' t hft
        rcases mem_updRec hr' with ⟨r, hr, hr'eq⟩
        subst hr'eq
        by_cases hs : r.sid = sid
        · rw [if_pos hs] at hft ⊢
          have hft' : r.firedAt = some t := hft
          refine ⟨(by intro hh; cases hh), (h4 r hr t hft').2⟩
        · rw [if_neg hs] at hft ⊢
          exact h4 r hr t hft
      · intro r' hr' hph
        rcases mem_updRec hr' with ⟨r, hr, hr'eq⟩
        subst hr'eq
        by_cases hs : r.sid = sid
        · rw [if_pos hs]
          have hreq : r = r0 := recs_inj h2 hr hr0mem (hs.trans hr0sid.symm)
          show tlookup s.table r.key ≠ some r.sid
          exact h5 r hr (Or.inl (by rw [hreq, hcond]))
        · rw [if_neg hs] at hph ⊢
          exact h5 r hr hph
      · intro r' hr' hph
        rcases mem_updRec hr' with ⟨r, hr, hr'eq⟩
        subst hr'eq
        by_cases hs : r.sid = sid
        · rw [if_pos hs]
          have hreq : r = r0 := recs_inj h2 hr hr0mem (hs.trans hr0sid.symm)
          show r.firedAt.isSome = true
          exact h6 r hr (Or.inl (by rw [hreq, hcond]))
        · rw [if_neg hs] at hph ⊢
          exact h6 r hr hph
      · intro r' hr' hiso
        rcases mem_updRec hr' with ⟨r, hr, hr'eq⟩
        subst hr'eq
        by_cases hs : r.sid = sid
        · rw [if_pos hs]
          exact Or.inr rfl
        · rw [if_neg hs] at hiso ⊢
          exact h9 r hr hiso
      · intro tid' rv' sid2 hres' hpc'
        obtain ⟨r, hr, hrsid, hrkey, hrph⟩ := h7 tid' rv' sid2 hres' hpc'
        have hsne : ¬ r.sid = sid := by
          intro hcontra
          have hreq : r = r0 := recs_inj h2 hr hr0mem (hcontra.trans hr0sid.symm)
          rw [hreq, hcond] at hrph
          cases hrph
        refine ⟨r, ?_, hrsid, hrkey, hrph⟩
        have hmem := @mem_updRec_of_mem _ sid closeRec _ hr
        rw [if_neg hsne] at hmem
        exact hmem
    · rw [if_neg hcond]
      exact h

/-- Invariant preservation by any step. -/
theorem regInv_step (s : RegState) (a : RAct) (h : RegInv s) :
    RegInv (regStep s a) := by
  cases a with
  | load tid => exact regInv_load s tid h
  | create tid => exact regInv_create s tid h
  | store tid => exact regInv_store s tid h
  | advance => exact regInv_advance s h
  | timerFire sid => exact regInv_fire s sid h
  | timerClose sid => exact regInv_close s sid h

/-- The invariant holds after any run from any invariant state. -/
theorem regInv_run (s : RegState) (acts : List RAct) (h : RegInv s) :
    RegInv (regRun s acts) := by
  induction acts generalizing s with
  | nil => exact h
  | cons a rest ih => exact ih (regStep s a) (regInv_step s a h)

theorem regStep_load_recs (s : RegState) (tid : Nat) :
    (regStep s (RAct.load tid)).recs = s.recs := by
  simp only [regStep]
  cases s.resolvers tid with
  | none => rfl
  | some rv =>
    dsimp only
    by_cases hpc : rv.pc = RPc.start
    · rw [if_pos hpc]
      cases tlookup s.table rv.key <;> rfl
    · rw [if_neg hpc]

/-- One step never destroys a session record, never changes its id, and
once the timer is armed never changes its arming time or deadline nor
un-arms it, and once fired keeps the fire timestamp: this is the
"armed exactly once at creation, never reset, fires at most once"
half of the timer discipline. -/
theorem rec_mono_step (s : RegState) (a : RAct) (h : RegInv s) (r : SessRec)
    (hr : r ∈ s.recs) :
    ∃ r' ∈ (regStep s a).recs, r'.sid = r.sid ∧
      (r.phase ≠ TPhase.preArm →
        r'.armedAt = r.armedAt ∧ r'.deadline = r.deadline ∧
        r'.phase ≠ TPhase.preArm) ∧
      (∀ t, r.firedAt = some t → r'.firedAt = some t) := by
  cases a with
  | load tid =>
    rw [regStep_load_recs]
    exact ⟨r, hr, rfl, fun hph => ⟨rfl, rfl, hph⟩, fun t ht => ht⟩
  | advance =>
    exact ⟨r, hr, rfl, fun hph => ⟨rfl, rfl, hph⟩, fun t ht => ht⟩
  | create tid =>
    simp only [regStep]
    cases hres : s.resolvers tid with
    | none => exact ⟨r, hr, rfl, fun hph => ⟨rfl, rfl, hph⟩, fun t ht => ht⟩
    | some rv =>
      dsimp only
      by_cases hpc : rv.pc = RPc.missed
      · rw [if_pos hpc]
        exact ⟨r, List.mem_append_left _ hr, rfl,
               fun hph => ⟨rfl, rfl, hph⟩, fun t ht => ht⟩
      · rw [if_neg hpc]
        exact ⟨r, hr, rfl, fun hph => ⟨rfl, rfl, hph⟩, fun t ht => ht⟩
  | store tid =>
    simp only [regStep]
    cases hres : s.resolvers tid with
    | none => exact ⟨r, hr, rfl, fun hph => ⟨rfl, rfl, hph⟩, fun t ht => ht⟩
    | some rv =>
      dsimp only
      cases hpcv : rv.pc with
      | start => exact ⟨r, hr, rfl, fun hph => ⟨rfl, rfl, hph⟩, fun t ht => ht⟩
      | missed => exact ⟨r, hr, rfl, fun hph => ⟨rfl, rfl, hph⟩, fun t ht => ht⟩
      | done sid => exact ⟨r, hr, rfl, fun hph => ⟨rfl, rfl, hph⟩, fun t ht => ht⟩
      | created sid =>
        by_cases hs : r.sid = sid
        · obtain ⟨rec0, hrec0, hrec0sid, _, hrec0ph⟩ :=
            h.createdLink tid rv sid hres hpcv
          have hreq : r = rec0 :=
            recs_inj h.sidNodup hr hrec0 (hs.trans hrec0sid.symm)
          refine ⟨armRec s.now r, ?_, rfl, ?_, ?_⟩
          · have hmem := @mem_updRec_of_mem _ sid (armRec s.now) _ hr
            rw [if_pos hs] at hmem
            exact hmem
          · intro hph
            exact absurd (by rw [hreq]; exact hrec0ph) hph
          · intro t ht
            exact ht
        · refine ⟨r, ?_, rfl, fun hph => ⟨rfl, rfl, hph⟩, fun t ht => ht⟩
          have hmem := @mem_updRec_of_mem _ sid (armRec s.now) _ hr
          rw [if_neg hs] at hmem
          exact hmem
  | timerFire sid =>
    simp only [regStep]
    cases hfind : findRec s.recs sid with
    | none => exact ⟨r, hr, rfl, fun hph => ⟨rfl, rfl, hph⟩, fun t ht => ht⟩
    | some r0 =>
      dsimp only
      by_cases hcond : r0.phase = TPhase.armed ∧ r0.deadline ≤ s.now
      · rw [if_pos hcond]
        by_cases hs : r.sid = sid
        · obtain ⟨hr0mem, hr0sid⟩ := findRec_mem hfind
          have hreq : r = r0 :=
            recs_inj h.sidNodup hr hr0mem (hs.trans hr0sid.symm)
          refine ⟨fireRec s.now r, ?_, rfl, ?_, ?_⟩
          · have hmem := @mem_updRec_of_mem _ sid (fireRec s.now) _ hr
            rw [if_pos hs] at hmem
            exact hmem
          · intro hph
            refine ⟨rfl, rfl, ?_⟩
            intro hh
            cases hh
          · intro t ht
            have hiso : r.firedAt.isSome = true := by rw [ht]; rfl
            rcases h.firedPhase r hr hiso with hph | hph <;>
              · rw [hreq, hcond.1] at hph
                cases hph
        · refine ⟨r, ?_, rfl, fun hph => ⟨rfl, rfl, hph⟩, fun t ht => ht⟩
          have hmem := @mem_updRec_of_mem _ sid (fireRec s.now) _ hr
          rw [if_neg hs] at hmem
          exact hmem
      · rw [if_neg hcond]
        exact ⟨r, hr, rfl, fun hph => ⟨rfl, rfl, hph⟩, fun t ht => ht⟩
  | timerClose sid =>
    simp only [regStep]
    cases hfind : findRec s.recs sid with
    | none => exact ⟨r, hr, rfl, fun hph => ⟨rfl, rfl, hph⟩, fun t ht => ht⟩
    | some r0 =>
      dsimp only
      by_cases hcond : r0.phase = TPhase.removed
      · rw [if_pos hcond]
        by_cases hs : r.sid = sid
        · refine ⟨closeRec r, ?_, rfl, ?_, ?_⟩
          · have hmem := @mem_updRec_of_mem _ sid closeRec _ hr
            rw [if_pos hs] at hmem
            exact hmem
          · intro hph
            refine ⟨rfl, rfl, ?_⟩
            intro hh
            cases hh
          · intro t ht
            exact ht
        · refine ⟨r, ?_, rfl, fun hph => ⟨rfl, rfl, hph⟩, fun t ht => ht⟩
          have hmem := @mem_updRec_of_mem _ sid closeRec _ hr
          rw [if_neg hs] at hmem
          exact hmem
      · rw [if_neg hcond]
        exact ⟨r, hr, rfl, fun hph => ⟨rfl, rfl, hph⟩, fun t ht => ht⟩

/-- Monotonicity over a whole run: a session record survives any further
activity with the same id, arming time, deadline and (once set) fire
timestamp. -/
theorem rec_mono_run (s : RegState) (acts : List RAct) (h : RegInv s)
    (r : SessRec) (hr : r ∈ s.recs) :
    ∃ r' ∈ (regRun s acts).recs, r'.sid = r.sid ∧
      (r.phase ≠ TPhase.preArm →
        r'.armedAt = r.armedAt ∧ r'.deadline = r.deadline ∧
        r'.phase ≠ TPhase.preArm) ∧
      (∀ t, r.firedAt = some t → r'.firedAt = some t) := by
  induction acts generalizing s r with
  | nil => exact ⟨r, hr, rfl, fun hph => ⟨rfl, rfl, hph⟩, fun t ht => ht⟩
  | cons a rest ih =>
    obtain ⟨r1, hr1, hsid1, harm1, hfired1⟩ := rec_mono_step s a h r hr
    obtain ⟨r2, hr2, hsid2, harm2, hfired2⟩ :=
      ih (regStep s a) (regInv_step s a h) r1 hr1
    refine ⟨r2, hr2, hsid2.trans hsid1, ?_, ?_⟩
    · intro hph
      obtain ⟨ha1, hd1, hp1⟩ := harm1 hph
      obtain ⟨ha2, hd2, hp2⟩ := harm2 hp1
      exact ⟨ha2.trans ha1, hd2.trans hd1, hp2⟩
    · intro t ht
      exact hfired2 t (hfired1 t ht)

theorem regStep_load_miss_eq (s : RegState) (tid : Nat) (rv : Resolver)
    (hres : s.resolvers tid = some rv) (hpc : rv.pc = RPc.start)
    (hmiss : tlookup s.table rv.key = none) :
    regStep s (RAct.load tid) =
      { s with resolvers := fun t =>
          if t = tid then some { key := rv.key, pc := RPc.missed }
          else s.resolvers t } := by
  simp only [regStep, hres]
  rw [if_pos hpc]
  simp only [hmiss]

theorem regStep_create_eq (s : RegState) (tid : Nat) (rv : Resolver)
    (hres : s.resolvers tid = some rv) (hpc : rv.pc = RPc.missed) :
    regStep s (RAct.create tid) =
      { s with
          recs := s.recs ++ [{ sid := s.nextSid, key := rv.key, armedAt := 0,
                               deadline := 0, firedAt := none,
                               phase := TPhase.preArm }],
          nextSid := s.nextSid + 1,
          spawned := s.spawned + 1,
          resolvers := fun t =>
            if t = tid then some { key := rv.key, pc := RPc.created s.nextSid }
            else s.resolvers t } := by
  simp only [regStep, hres]
  rw [if_pos hpc]

theorem regStep_store_eq (s : RegState) (tid : Nat) (rv : Resolver) (sid : Nat)
    (hres : s.resolvers tid = some rv) (hpcv : rv.pc = RPc.created sid) :
    regStep s (RAct.store tid) =
      { s with
          table := tinsert s.table rv.key sid,
          recs := updRec s.recs sid (armRec s.now),
          resolvers := fun t =>
            if t = tid then some { key := rv.key, pc := RPc.done sid }
            else s.resolvers t } := by
  simp only [regStep, hres]
  simp only [hpcv]

/-- After the key is gone from the table, a fresh resolve for that key
runs load-miss, create, store: it spawns one more child process and
registers a brand-new session id under the key. -/
theorem respawn_run (s : RegState) (tid : Nat) (rv : Resolver)
    (hres : s.resolvers tid = some rv) (hpc : rv.pc = RPc.start)
    (hmiss : tlookup s.table rv.key = none) :
    (regRun s (RAct.load tid :: RAct.create tid :: RAct.store tid :: [])).spawned
      = s.spawned + 1 ∧
    tlookup (regRun s
        (RAct.load tid :: RAct.create tid :: RAct.store tid :: [])).table
      rv.key = some s.nextSid := by
  have e1 := regStep_load_miss_eq s tid rv hres hpc hmiss
  show (regStep (regStep (regStep s (RAct.load tid)) (RAct.create tid))
      (RAct.store tid)).spawned = s.spawned + 1 ∧
    tlookup (regStep (regStep (regStep s (RAct.load tid)) (RAct.create tid))
      (RAct.store tid)).table rv.key = some s.nextSid
  rw [e1]
  rw [regStep_create_eq _ tid { key := rv.key, pc := RPc.missed }
       (by dsimp only; rw [if_pos rfl]) rfl]
  dsimp only
  rw [regStep_store_eq _ tid { key := rv.key, pc := RPc.created s.nextSid }
       s.nextSid (by dsimp only; rw [if_pos rfl]) rfl]
  dsimp only
  exact ⟨rfl, tlookup_tinsert_self _ _ _⟩

/-- Claim C4: for every session and every interleaving, the eviction
timer is armed exactly once, at creation (each session id has a unique
record, and its arming step fixes the deadline at exactly thirty
minutes after arming); no subsequent activity ever changes the arming
time or deadline or re-fires the timer; the timer fires at most once
and never before its deadline; on firing it first removes the key from
the registry (a fired session is never registered under its key, and a
session is closed only after its fire/delete step); and a subsequent
request with the same, now-free key spawns a brand-new process with a
fresh session id. -/
theorem claim4_thm (keys : List String) (acts : List RAct) :
    ((regRun (regInit keys) acts).recs.map SessRec.sid).Nodup ∧
    (∀ r ∈ (regRun (regInit keys) acts).recs, r.phase ≠ TPhase.preArm →
      r.deadline = r.armedAt + 30) ∧
    (∀ r ∈ (regRun (regInit keys) acts).recs, ∀ t, r.firedAt = some t →
      r.armedAt + 30 ≤ t) ∧
    (∀ r ∈ (regRun (regInit keys) acts).recs,
      r.phase = TPhase.removed ∨ r.phase = TPhase.closedT →
      tlookup (regRun (regInit keys) acts).table r.key ≠ some r.sid) ∧
    (∀ r ∈ (regRun (regInit keys) acts).recs, r.phase = TPhase.closedT →
      r.firedAt.isSome = true) ∧
    (∀ ext : List RAct, ∀ r ∈ (regRun (regInit keys) acts).recs,
      ∃ r' ∈ (regRun (regInit keys) (acts ++ ext)).recs, r'.sid = r.sid ∧
        (r.phase ≠ TPhase.preArm →
          r'.armedAt = r.armedAt ∧ r'.deadline = r.deadline ∧
          r'.phase ≠ TPhase.preArm) ∧
        (∀ t, r.firedAt = some t → r'.firedAt = some t)) ∧
    (∀ tid rv, (regRun (regInit keys) acts).resolvers tid = some rv →
      rv.pc = RPc.start →
      tlookup (regRun (regInit keys) acts).table rv.key = none →
      (regRun (regInit keys)
          (acts ++ (RAct.load tid :: RAct.create tid :: RAct.store tid :: []))).spawned =
        (regRun (regInit keys) acts).spawned + 1 ∧
      tlookup (regRun (regInit keys)
          (acts ++ (RAct.load tid :: RAct.create tid :: RAct.store tid :: []))).table
        rv.key = some (regRun (regInit keys) acts).nextSid ∧
      (∀ r ∈ (regRun (regInit keys) acts).recs,
        r.sid ≠ (regRun (regInit keys) acts).nextSid)) := by
  have hinv := regInv_run (regInit keys) acts (regInv_init keys)
  have happ : ∀ ext : List RAct,
      regRun (regInit keys) (acts ++ ext) =
        regRun (regRun (regInit keys) acts) ext := by
    intro ext
    simp [regRun, List.foldl_append]
  refine ⟨hinv.sidNodup, hinv.deadlineEq, ?_, hinv.removedOut, ?_, ?_, ?_⟩
  · intro r hr t ht
    have h4 := hinv.firedLate r hr t ht
    have h3 := hinv.deadlineEq r hr h4.1
    rw [← h3]
    exact h4.2
  · intro r hr hph
    exact hinv.firedSome r hr (Or.inr hph)
  · intro ext r hr
    rw [happ ext]
    exact rec_mono_run _ ext hinv r hr
  · intro tid rv hres hpc hmiss
    rw [happ _]
    obtain ⟨hsp, htl⟩ :=
      respawn_run (regRun (regInit keys) acts) tid rv hres hpc hmiss
    refine ⟨hsp, htl, ?_⟩
    intro r hr hcontra
    exact absurd (hcontra ▸ hinv.sidBound r hr) (Nat.lt_irrefl _)

/-- Witness for C4: one session for key `k` is created, its timer fires
at +30 and the session is closed; a second, fresh request for `k` then
spawns a new process with a fresh id. -/
theorem claim4_witness :
    (regRun (regInit ("k" :: "k" :: []))
        ((RAct.load 0 :: RAct.create 0 :: RAct.store 0 :: [])
          ++ List.replicate 30 RAct.advance
          ++ (RAct.timerFire 0 :: RAct.timerClose 0 :: [])
          ++ (RAct.load 1 :: RAct.create 1 :: RAct.store 1 :: []))).spawned =
      (regRun (regInit ("k" :: "k" :: []))
        ((RAct.load 0 :: RAct.create 0 :: RAct.store 0 :: [])
          ++ List.replicate 30 RAct.advance
          ++ (RAct.timerFire 0 :: RAct.timerClose 0 :: []))).spawned + 1 ∧
    tlookup (regRun (regInit ("k" :: "k" :: []))
        ((RAct.load 0 :: RAct.create 0 :: RAct.store 0 :: [])
          ++ List.replicate 30 RAct.advance
          ++ (RAct.timerFire 0 :: RAct.timerClose 0 :: [])
          ++ (RAct.load 1 :: RAct.create 1 :: RAct.store 1 :: []))).table
      (Resolver.key { key := "k", pc := RPc.start }) =
      some (regRun (regInit ("k" :: "k" :: []))
        ((RAct.load 0 :: RAct.create 0 :: RAct.store 0 :: [])
          ++ List.replicate 30 RAct.advance
          ++ (RAct.timerFire 0 :: RAct.timerClose 0 :: []))).nextSid ∧
    (∀ r ∈ (regRun (regInit ("k" :: "k" :: []))
        ((RAct.load 0 :: RAct.create 0 :: RAct.store 0 :: [])
          ++ List.replicate 30 RAct.advance
          ++ (RAct.timerFire 0 :: RAct.timerClose 0 :: []))).recs,
      r.sid ≠ (regRun (regInit ("k" :: "k" :: []))
        ((RAct.load 0 :: RAct.create 0 :: RAct.store 0 :: [])
          ++ List.replicate 30 RAct.advance
          ++ (RAct.timerFire 0 :: RAct.timerClose 0 :: []))).nextSid) := by
  have h := (claim4_thm ("k" :: "k" :: [])
      ((RAct.load 0 :: RAct.create 0 :: RAct.store 0 :: [])
        ++ List.replicate 30 RAct.advance
        ++ (RAct.timerFire 0 :: RAct.timerClose 0 :: []))).2.2.2.2.2.2
    1 { key := "k", pc := RPc.start } (by rfl) (by rfl) (by rfl)
  simpa using h

/-! ## Small-step model of the SendRequest mutex discipline

`SendRequest` runs `s.mu.Lock(); defer s.mu.Unlock()`, then marshals,
writes one line, reads one line, and unmarshals — all inside the lock.
Each concurrent HTTP exchange against the same session is a thread; the
oracle fixes which of the five outcomes that thread's exchange has.
The pipe trace records the successful writes and reads in order. -/

/-- Outcome of one thread's exchange. -/
inductive Outcome : Type where
  | marshalFail : Outcome
  | writeFail : Outcome
  | readFail : Outcome
  | unmarshalFail : Outcome
  | ok : Outcome
deriving DecidableEq

/-- Program counter of one exchange thread. -/
inductive SPc : Type where
  | idle : SPc
  | locked : SPc
  | wrote : SPc
  | finished (ok : Bool) : SPc
deriving DecidableEq

/-- One observable event on the session's pipe pair. -/
inductive PEv : Type where
  | write (tid : Nat) : PEv
  | read (tid : Nat) : PEv
deriving DecidableEq

/-- Global state of the mutex model. -/
structure MState where
  mutex : Option Nat
  pcs : Nat → SPc
  trace : List PEv

/-- Initial state: lock free, every thread about to call `SendRequest`. -/
def mInit : MState := { mutex := none, pcs := fun _ => SPc.idle, trace := [] }

/-- Pointwise pc update. -/
def updPc (pcs : Nat → SPc) (t : Nat) (p : SPc) : Nat → SPc :=
  fun u => if u = t then p else pcs u

/-- One scheduled step of thread `t`.  `Lock()` blocks while another
thread holds the mutex (the step is then a no-op); the unlock happens at
return from `SendRequest` on every path, successful or failing, as the
deferred `Unlock` does. -/
def mStep (oc : Nat → Outcome) (s : MState) (t : Nat) : MState :=
  match s.pcs t with
  | SPc.idle =>
    match s.mutex with
    | none => { s with mutex := some t, pcs := updPc s.pcs t SPc.locked }
    | some _ => s
  | SPc.locked =>
    match oc t with
    | Outcome.marshalFail =>
      { s with mutex := none, pcs := updPc s.pcs t (SPc.finished false) }
    | Outcome.writeFail =>
      { s with mutex := none, pcs := updPc s.pcs t (SPc.finished false) }
    | _ =>
      { s with trace := s.trace ++ (PEv.write t :: []),
               pcs := updPc s.pcs t SPc.wrote }
  | SPc.wrote =>
    match oc t with
    | Outcome.readFail =>
      { s with mutex := none, pcs := updPc s.pcs t (SPc.finished false) }
    | Outcome.unmarshalFail =>
      { s with trace := s.trace ++ (PEv.read t :: []), mutex := none,
               pcs := updPc s.pcs t (SPc.finished false) }
    | _ =>
      { s with trace := s.trace ++ (PEv.read t :: []), mutex := none,
               pcs := updPc s.pcs t (SPc.finished true) }
  | SPc.finished _ => s

/-- Run a schedule. -/
def mRun (oc : Nat → Outcome) (sched : List Nat) : MState :=
  sched.foldl (mStep oc) mInit

/-- A pipe trace is serialized when it is a concatenation of
per-exchange blocks: a full write-then-read block, or a lone write (an
exchange whose read failed).  In particular no thread's write ever falls
between another thread's write and read. -/
inductive Blocks : List PEv → Prop where
  | nil : Blocks []
  | pair (t : Nat) (l : List PEv) (h : Blocks l) :
      Blocks (l ++ (PEv.write t :: PEv.read t :: []))
  | lone (t : Nat) (l : List PEv) (h : Blocks l) :
      Blocks (l ++ (PEv.write t :: []))

/-- Invariant of the mutex model: a thread that is between `Lock` and
return holds the mutex and vice versa; the trace is a sequence of
completed blocks, plus a pending lone write exactly while the holder
has written and not yet read. -/
structure MInv (s : MState) : Prop where
  holderMid : ∀ t, s.pcs t = SPc.locked ∨ s.pcs t = SPc.wrote →
    s.mutex = some t
  mutexMid : ∀ t, s.mutex = some t →
    s.pcs t = SPc.locked ∨ s.pcs t = SPc.wrote
  pendingShape : ∀ t, s.mutex = some t → s.pcs t = SPc.wrote →
    ∃ l, s.trace = l ++ (PEv.write t :: []) ∧ Blocks l
  freeBlocks : s.mutex = none → Blocks s.trace
  lockedBlocks : ∀ t, s.mutex = some t → s.pcs t = SPc.locked →
    Blocks s.trace

/-- Any invariant state has a serialized trace. -/
theorem mInv_blocks (s : MState) (h : MInv s) : Blocks s.trace := by
  cases hmu : s.mutex with
  | none => exact h.freeBlocks hmu
  | some t =>
    rcases h.mutexMid t hmu with hpc | hpc
    · exact h.lockedBlocks t hmu hpc
    · obtain ⟨l, htr, hb⟩ := h.pendingShape t hmu hpc
      rw [htr]
      exact Blocks.lone t l hb

theorem mInv_init : MInv mInit := by
  refine ⟨?_, ?_, ?_, fun _ => Blocks.nil, ?_⟩
  · intro t ht
    rcases ht with ht | ht <;> cases ht
  · intro t ht
    cases ht
  · intro t ht
    cases ht
  · intro t ht
    cases ht

theorem mInv_step (oc : Nat → Outcome) (s : MState) (t : Nat) (h : MInv s) :
    MInv (mStep oc s t) := by
  obtain ⟨h1, h2, h3, h4, h5⟩ := h
  have hblocks : Blocks s.trace := mInv_blocks s ⟨h1, h2, h3, h4, h5⟩
  unfold mStep
  cases hpc : s.pcs t with
  | idle =>
    cases hmu : s.mutex with
    | some u => exact ⟨h1, h2, h3, h4, h5⟩
    | none =>
      dsimp only
      refine ⟨?_, ?_, ?_, ?_, ?_⟩
      · intro u hu
        dsimp only [updPc] at hu
        by_cases het : u = t
        · rw [het]
        · rw [if_neg het] at hu
          have := h1 u hu
          rw [hmu] at this
          cases this
      · intro u hu
        cases hu
        dsimp only [updPc]
        rw [if_pos rfl]
        exact Or.inl rfl
      · intro u hu hw
        cases hu
        dsimp only [updPc] at hw
        rw [if_pos rfl] at hw
        cases hw
      · intro hu
        cases hu
      · intro u hu hl
        exact hblocks
  | locked =>
    have hmu : s.mutex = some t := h1 t (Or.inl hpc)
    have hothers : ∀ u, u ≠ t →
        ¬ (s.pcs u = SPc.locked ∨ s.pcs u = SPc.wrote) := by
      intro u hne hu
      have := h1 u hu
      rw [hmu] at this
      cases this
      exact hne rfl
    cases hoc : oc t with
    | marshalFail =>
      dsimp only
      refine ⟨?_, ?_, ?_, fun _ => hblocks, ?_⟩
      · intro u hu
        dsimp only [updPc] at hu
        by_cases het : u = t
        · rw [if_pos het] at hu
          rcases hu with hu | hu <;> cases hu
        · rw [if_neg het] at hu
          exact absurd hu (hothers u het)
      · intro u hu
        cases hu
      · intro u hu
        cases hu
      · intro u hu
        cases hu
    | writeFail =>
      dsimp only
      refine ⟨?_, ?_, ?_, fun _ => hblocks, ?_⟩
      · intro u hu
        dsimp only [updPc] at hu
        by_cases het : u = t
        · rw [if_pos het] at hu
          rcases hu with hu | hu <;> cases hu
        · rw [if_neg het] at hu
          exact absurd hu (hothers u het)
      · intro u hu
        cases hu
      · intro u hu
        cases hu
      · intro u hu
        cases hu
    | readFail =>
      dsimp only
      refine ⟨?_, ?_, ?_, ?_, ?_⟩
      · intro u hu
        dsimp only [updPc] at hu
        by_cases het : u = t
        · rw [het]
          exact hmu
        · rw [if_neg het] at hu
          exact absurd hu (hothers u het)
      · intro u hu
        rw [hmu] at hu
        cases hu
        dsimp only [updPc]
        rw [if_pos rfl]
        exact Or.inr rfl
      · intro u hu hw
        rw [hmu] at hu
        cases hu
        exact ⟨s.trace, rfl, hblocks⟩
      · intro hu
        rw [hmu] at hu
        cases hu
      · intro u hu hl
        rw [hmu] at hu
        cases hu
        dsimp only [updPc] at hl
        rw [if_pos rfl] at hl
        cases hl
    | unmarshalFail =>
      dsimp only
      refine ⟨?_, ?_, ?_, ?_, ?_⟩
      · intro u hu
        dsimp only [updPc] at hu
        by_cases het : u = t
        · rw [het]
          exact hmu
        · rw [if_neg het] at hu
          exact absurd hu (hothers u het)
      · intro u hu
        rw [hmu] at hu
        cases hu
        dsimp only [updPc]
        rw [if_pos rfl]
        exact Or.inr rfl
      · intro u hu hw
        rw [hmu] at hu
        cases hu
        exact ⟨s.trace, rfl, hblocks⟩
      · intro hu
        rw [hmu] at hu
        cases hu
      · intro u hu hl
        rw [hmu] at hu
        cases hu
        dsimp only [updPc] at hl
        rw [if_pos rfl] at hl
        cases hl
    | ok =>
      dsimp only
      refine ⟨?_, ?_, ?_, ?_, ?_⟩
      · intro u hu
        dsimp only [updPc] at hu
        by_cases het : u = t
        · rw [het]
          exact hmu
        · rw [if_neg het] at hu
          exact absurd hu (hothers u het)
      · intro u hu
        rw [hmu] at hu
        cases hu
        dsimp only [updPc]
        rw [if_pos rfl]
        exact Or.inr rfl
      · intro u hu hw
        rw [hmu] at hu
        cases hu
        exact ⟨s.trace, rfl, hblocks⟩
      · intro hu
        rw [hmu] at hu
        cases hu
      · intro u hu hl
        rw [hmu] at hu
        cases hu
        dsimp only [updPc] at hl
        rw [if_pos rfl] at hl
        cases hl
  | wrote =>
    have hmu : s.mutex = some t := h1 t (Or.inr hpc)
    obtain ⟨l, htr, hb⟩ := h3 t hmu hpc
    have hothers : ∀ u, u ≠ t →
        ¬ (s.pcs u = SPc.locked ∨ s.pcs u = SPc.wrote) := by
      intro u hne hu
      have := h1 u hu
      rw [hmu] at this
      cases this
      exact hne rfl
    have hlone : Blocks (l ++ (PEv.write t :: [])) := Blocks.lone t l hb
    have hpair : Blocks ((l ++ (PEv.write t :: [])) ++ (PEv.read t :: [])) := by
      rw [List.append_assoc]
      exact Blocks.pair t l hb
    cases hoc : oc t with
    | readFail =>
      dsimp only
      refine ⟨?_, ?_, ?_, ?_, ?_⟩
      · intro u hu
        dsimp only [updPc] at hu
        by_cases het : u = t
        · rw [if_pos het] at hu
          rcases hu with hu | hu <;> cases hu
        · rw [if_neg het] at hu
          exact absurd hu (hothers u het)
      · intro u hu
        cases hu
      · intro u hu
        cases hu
      · intro _
        rw [htr]
        exact hlone
      · intro u hu
        cases hu
    | unmarshalFail =>
      dsimp only
      refine ⟨?_, ?_, ?_, ?_, ?_⟩
      · intro u hu
        dsimp only [updPc] at hu
        by_cases het : u = t
        · rw [if_pos het] at hu
          rcases hu with hu | hu <;> cases hu
        · rw [if_neg het] at hu
          exact absurd hu (hothers u het)
      · intro u hu
        cases hu
      · intro u hu
        cases hu
      · intro _
        rw [htr]
        exact hpair
      · intro u hu
        cases hu
    | ok =>
      dsimp only
      refine ⟨?_, ?_, ?_, ?_, ?_⟩
      · intro u hu
        dsimp only [updPc] at hu
        by_cases het : u = t
        · rw [if_pos het] at hu
          rcases hu with hu | hu <;> cases hu
        · rw [if_neg het] at hu
          exact absurd hu (hothers u het)
      · intro u hu
        cases hu
      · intro u hu
        cases hu
      · intro _
        rw [htr]
        exact hpair
      · intro u hu
        cases hu
    | marshalFail =>
      dsimp only
      refine ⟨?_, ?_, ?_, ?_, ?_⟩
      · intro u hu
        dsimp only [updPc] at hu
        by_cases het : u = t
        · rw [if_pos het] at hu
          rcases hu with hu | hu <;> cases hu
        · rw [if_neg het] at hu
          exact absurd hu (hothers u het)
      · intro u hu
        cases hu
      · intro u hu
        cases hu
      · intro _
        rw [htr]
        exact hpair
      · intro u hu
        cases hu
    | writeFail =>
      dsimp only
      refine ⟨?_, ?_, ?_, ?_, ?_⟩
      · intro u hu
        dsimp only [updPc] at hu
        by_cases het : u = t
        · rw [if_pos het] at hu
          rcases hu with hu | hu <;> cases hu
        · rw [if_neg het] at hu
          exact absurd hu (hothers u het)
      · intro u hu
        cases hu
      · intro u hu
        cases hu
      · intro _
        rw [htr]
        exact hpair
      · intro u hu
        cases hu
  | finished b => exact ⟨h1, h2, h3, h4, h5⟩

/-- The invariant holds after any schedule. -/
theorem mInv_run (oc : Nat → Outcome) (sched : List Nat) :
    MInv (mRun oc sched) := by
  have hgen : ∀ (s : MState), MInv s → MInv (sched.foldl (mStep oc) s) := by
    induction sched with
    | nil => intro s hs; exact hs
    | cons a rest ih =>
      intro s hs
      exact ih (mStep oc s a) (mInv_step oc s a hs)
  exact hgen mInit mInv_init

/-- Claim C5: for every schedule and every combination of per-exchange
outcomes, the session's exclusive lock is acquired before the write and
held across the full write-plus-read round trip, and released on every
exit path: the pipe trace is always a concatenation of complete
per-exchange blocks (no thread's write falls between another's write
and read), a finished thread — successful or failed — never holds the
lock, and whoever holds the lock is mid-exchange (between `Lock` and
return). -/
theorem claim5_thm (oc : Nat → Outcome) (sched : List Nat) :
    Blocks (mRun oc sched).trace ∧
    (∀ t b, (mRun oc sched).pcs t = SPc.finished b →
      (mRun oc sched).mutex ≠ some t) ∧
    (∀ t, (mRun oc sched).mutex = some t →
      (mRun oc sched).pcs t = SPc.locked ∨ (mRun oc sched).pcs t = SPc.wrote) := by
  have h := mInv_run oc sched
  refine ⟨mInv_blocks _ h, ?_, h.mutexMid⟩
  intro t b hpc hcontra
  rcases h.mutexMid t hcontra with hh | hh <;> (rw [hpc] at hh; cases hh)

/-- Witness for C5: two threads race on one session; thread 0 completes
a full exchange, thread 1's read fails; the trace is serialized and the
finished thread 0 no longer holds the lock. -/
theorem claim5_witness :
    Blocks (mRun (fun t => if t = 0 then Outcome.ok else Outcome.readFail)
      (0 :: 1 :: 0 :: 1 :: 0 :: 1 :: [])).trace ∧
    (mRun (fun t => if t = 0 then Outcome.ok else Outcome.readFail)
      (0 :: 1 :: 0 :: 1 :: 0 :: 1 :: [])).mutex ≠ some 0 :=
  ⟨(claim5_thm (fun t => if t = 0 then Outcome.ok else Outcome.readFail)
      (0 :: 1 :: 0 :: 1 :: 0 :: 1 :: [])).1,
   (claim5_thm (fun t => if t = 0 then Outcome.ok else Outcome.readFail)
      (0 :: 1 :: 0 :: 1 :: 0 :: 1 :: [])).2.1 0 true (by rfl)⟩

/-! ## Incremental-parsing lemmas

Go's `Decoder.Decode` reads exactly one JSON value from the front of
the stream and never looks past the closing brace of an object.  In the
model this is the statement that a successful parse is stable under
appending arbitrary bytes (for bare numbers only under the proviso that
the appended bytes do not start with a digit — an envelope body is an
object, so the proviso never bites at top level). -/

/-- Head-digit test of the appended bytes. -/
def digitHead : List Char → Bool
  | [] => false
  | c :: _ => c.isDigit

/-- Appending to a bare number is only safe when the appended bytes do
not begin with a digit; any other value is delimited by its syntax. -/
def numGuard : Json → List Char → Prop
  | .num _, t => digitHead t = false
  | _, _ => True

theorem dropWhile_append_of_cons {p : Char → Bool} {s r : List Char} {c : Char}
    (h : s.dropWhile p = c :: r) (t : List Char) :
    (s ++ t).dropWhile p = c :: (r ++ t) := by
  induction s with
  | nil => cases h
  | cons a s' ih =>
    rw [List.cons_append]
    by_cases hpa : p a = true
    · simp only [List.dropWhile_cons, hpa, if_true] at h ⊢
      exact ih h
    · simp only [List.dropWhile_cons, hpa, if_false] at h ⊢
      cases h
      rfl

theorem takeWhile_append_of_cons {p : Char → Bool} {s r : List Char} {c : Char}
    (h : s.dropWhile p = c :: r) (t : List Char) :
    (s ++ t).takeWhile p = s.takeWhile p := by
  induction s with
  | nil => cases h
  | cons a s' ih =>
    rw [List.cons_append]
    by_cases hpa : p a = true
    · simp only [List.dropWhile_cons, hpa, if_true] at h
      simp only [List.takeWhile_cons, hpa, if_true]
      rw [ih h]
    · simp only [List.dropWhile_cons, hpa, if_false] at h
      simp [List.takeWhile_cons, hpa]

theorem dropWhile_eq_self_of_takeWhile_nil {p : Char → Bool} {t : List Char}
    (ht : t.takeWhile p = []) : t.dropWhile p = t := by
  cases t with
  | nil => rfl
  | cons c r =>
    by_cases hpc : p c = true
    · simp only [List.takeWhile_cons, hpc, if_true] at ht
      cases ht
    · simp [List.dropWhile_cons, hpc]

theorem takeWhile_append_all {p : Char → Bool} {s : List Char}
    (h : s.dropWhile p = []) {t : List Char} (ht : t.takeWhile p = []) :
    (s ++ t).takeWhile p = s.takeWhile p ∧ (s ++ t).dropWhile p = t := by
  induction s with
  | nil => exact ⟨by simpa using ht, by simpa using dropWhile_eq_self_of_takeWhile_nil ht⟩
  | cons a s' ih =>
    by_cases hpa : p a = true
    · simp only [List.dropWhile_cons, hpa, if_true] at h
      obtain ⟨ih1, ih2⟩ := ih h
      rw [List.cons_append]
      constructor
      · simp only [List.takeWhile_cons, hpa, if_true]
        rw [ih1]
      · simp only [List.dropWhile_cons, hpa, if_true]
        exact ih2
    · simp only [List.dropWhile_cons, hpa, if_false] at h
      cases h

theorem stripLit_append : ∀ (pre s r : List Char), stripLit pre s = some r →
    ∀ t, stripLit pre (s ++ t) = some (r ++ t)
  | [], s, r, h, t => by
    simp only [stripLit] at h ⊢
    cases h
    rfl
  | _ :: _, [], _, h, _ => by cases h
  | p :: ps, c :: cs, r, h, t => by
    rw [List.cons_append]
    simp only [stripLit] at h ⊢
    by_cases hc : c = p
    · rw [if_pos hc] at h ⊢
      exact stripLit_append ps cs r h t
    · rw [if_neg hc] at h
      cases h

theorem parseStrAux_append : ∀ (s cs r : List Char),
    parseStrAux s = some (cs, r) →
    ∀ t, parseStrAux (s ++ t) = some (cs, r ++ t)
  | [], _, _, h, _ => by cases h
  | c :: [], cs, r, h, t => by
    rw [List.cons_append]
    unfold parseStrAux at h ⊢
    by_cases hq : c = qch
    · rw [if_pos hq] at h ⊢
      cases h
      rfl
    · rw [if_neg hq] at h ⊢
      by_cases hb : c = bsl
      · rw [if_pos hb] at h
        cases h
      · rw [if_neg hb] at h ⊢
        rw [show parseStrAux [] = none from rfl] at h
        cases h
  | c :: d :: rest2, cs, r, h, t => by
    rw [List.cons_append]
    unfold parseStrAux at h ⊢
    by_cases hq : c = qch
    · rw [if_pos hq] at h ⊢
      cases h
      rfl
    · rw [if_neg hq] at h ⊢
      by_cases hb : c = bsl
      · rw [if_pos hb] at h ⊢
        rw [List.cons_append]
        dsimp only at h ⊢
        by_cases hd : (d = qch || d = bsl) = true
        · rw [if_pos hd] at h ⊢
          cases hrec : parseStrAux rest2 with
          | none => rw [hrec] at h; cases h
          | some p =>
            obtain ⟨cs2, r2⟩ := p
            rw [hrec] at h
            cases h
            rw [parseStrAux_append rest2 cs2 _ hrec t]
        · rw [if_neg hd] at h
          cases h
      · rw [if_neg hb] at h ⊢
        cases hrec : parseStrAux (d :: rest2) with
        | none => rw [hrec] at h; cases h
        | some p =>
          obtain ⟨cs2, r2⟩ := p
          rw [hrec] at h
          cases h
          rw [parseStrAux_append (d :: rest2) cs2 _ hrec t]

theorem parseDigits_append {s : List Char} {n : Nat} {r : List Char}
    (h : parseDigits s = some (n, r)) (t : List Char)
    (hg : r = [] → digitHead t = false) :
    parseDigits (s ++ t) = some (n, r ++ t) := by
  unfold parseDigits at h ⊢
  by_cases he : (s.takeWhile Char.isDigit).isEmpty
  · rw [if_pos he] at h
    cases h
  · rw [if_neg he] at h
    cases h
    cases hr : s.dropWhile Char.isDigit with
    | cons c rest =>
      rw [takeWhile_append_of_cons hr t, dropWhile_append_of_cons hr t]
      rw [if_neg he]
      rfl
    | nil =>
      have hg2 : digitHead t = false := hg hr
      have htw : t.takeWhile Char.isDigit = [] := by
        cases t with
        | nil => rfl
        | cons c2 r2 =>
          simp only [digitHead] at hg2
          simp [List.takeWhile_cons, hg2]
      obtain ⟨h1, h2⟩ := takeWhile_append_all hr htw
      rw [h1, h2, if_neg he]
      simp

theorem parseNum_shape {s : List Char} {v : Json} {r : List Char}
    (h : parseNum s = some (v, r)) : ∃ n : Int, v = Json.num n := by
  cases s with
  | nil => cases h
  | cons c rest =>
    simp only [parseNum] at h
    by_cases hc : c = '-'
    · rw [if_pos hc] at h
      cases hd : parseDigits rest with
      | none => rw [hd] at h; cases h
      | some p =>
        rw [hd] at h
        obtain ⟨n2, r2⟩ := p
        cases h
        exact ⟨_, rfl⟩
    · rw [if_neg hc] at h
      cases hd : parseDigits (c :: rest) with
      | none => rw [hd] at h; cases h
      | some p =>
        rw [hd] at h
        obtain ⟨n2, r2⟩ := p
        cases h
        exact ⟨_, rfl⟩

theorem parseNum_append {s : List Char} {v : Json} {r : List Char}
    (h : parseNum s = some (v, r)) (t : List Char)
    (hg : r = [] → digitHead t = false) :
    parseNum (s ++ t) = some (v, r ++ t) := by
  cases s with
  | nil => cases h
  | cons c rest =>
    rw [List.cons_append]
    simp only [parseNum] at h ⊢
    by_cases hc : c = '-'
    · rw [if_pos hc] at h ⊢
      cases hd : parseDigits rest with
      | none => rw [hd] at h; cases h
      | some p =>
        obtain ⟨n2, r2⟩ := p
        rw [hd] at h
        cases h
        rw [parseDigits_append hd t hg]
    · rw [if_neg hc] at h ⊢
      cases hd : parseDigits (c :: rest) with
      | none => rw [hd] at h; cases h
      | some p =>
        obtain ⟨n2, r2⟩ := p
        rw [hd] at h
        cases h
        rw [show c :: (rest ++ t) = (c :: rest) ++ t from rfl]
        rw [parseDigits_append hd t hg]

theorem parseVal_nil (f : Nat) : parseVal f [] = none := by
  cases f with
  | zero => rfl
  | succ f2 => rfl

theorem skipWs_append {s r : List Char} {c : Char} (h : skipWs s = c :: r)
    (t : List Char) : skipWs (s ++ t) = c :: (r ++ t) :=
  dropWhile_append_of_cons h t

/-- Appending bytes to a successfully parsed prefix does not change the
parse result (for a bare number, provided the appended bytes do not
start with a digit); at the same time the parse succeeds identically at
any larger fuel.  This is the model-level counterpart of Go's decoder
stopping at the end of the first value. -/
theorem parse_append : ∀ f : Nat,
    (∀ g s v r t, f ≤ g → parseVal f s = some (v, r) →
      (r = [] → numGuard v t) → parseVal g (s ++ t) = some (v, r ++ t)) ∧
    (∀ g s v r t, f ≤ g → parseObjRest f s = some (v, r) →
      parseObjRest g (s ++ t) = some (v, r ++ t)) ∧
    (∀ g s ms r t, f ≤ g → parseMemberSeq f s = some (ms, r) →
      parseMemberSeq g (s ++ t) = some (ms, r ++ t)) ∧
    (∀ g s v r t, f ≤ g → parseArrRest f s = some (v, r) →
      parseArrRest g (s ++ t) = some (v, r ++ t)) ∧
    (∀ g s xs r t, f ≤ g → parseElemSeq f s = some (xs, r) →
      parseElemSeq g (s ++ t) = some (xs, r ++ t)) := by
  intro f
  induction f with
  | zero =>
    refine ⟨?_, ?_, ?_, ?_, ?_⟩ <;>
      · intro g s a r t hfg h
        exact Option.noConfusion h
  | succ f ih =>
    obtain ⟨ihV, ihO, ihM, ihA, ihE⟩ := ih
    refine ⟨?_, ?_, ?_, ?_, ?_⟩
    · -- parseVal
      intro g s v r t hfg hg hguard
      cases g with
      | zero => exact absurd hfg (by omega)
      | succ g2 =>
        have hfg2 : f ≤ g2 := by omega
        unfold parseVal at hg ⊢
        cases hsk : skipWs s with
        | nil => rw [hsk] at hg; cases hg
        | cons c rest =>
          rw [hsk] at hg
          rw [skipWs_append hsk t]
          dsimp only at hg ⊢
          by_cases h1 : c = qch
          · rw [if_pos h1] at hg ⊢
            cases hps : parseStrAux rest with
            | none => rw [hps] at hg; cases hg
            | some p =>
              obtain ⟨cs, r1⟩ := p
              rw [hps] at hg
              cases hg
              rw [parseStrAux_append rest cs _ hps t]
          · rw [if_neg h1] at hg ⊢
            by_cases h2 : c = lbr
            · rw [if_pos h2] at hg ⊢
              exact ihO g2 rest v r t hfg2 hg
            · rw [if_neg h2] at hg ⊢
              by_cases h3 : c = '['
              · rw [if_pos h3] at hg ⊢
                exact ihA g2 rest v r t hfg2 hg
              · rw [if_neg h3] at hg ⊢
                by_cases h4 : c = 'n'
                · rw [if_pos h4] at hg ⊢
                  cases hsl : stripLit ('u' :: 'l' :: 'l' :: []) rest with
                  | none => rw [hsl] at hg; cases hg
                  | some r1 =>
                    rw [hsl] at hg
                    cases hg
                    rw [stripLit_append _ rest _ hsl t]
                · rw [if_neg h4] at hg ⊢
                  by_cases h5 : c = 't'
                  · rw [if_pos h5] at hg ⊢
                    cases hsl : stripLit ('r' :: 'u' :: 'e' :: []) rest with
                    | none => rw [hsl] at hg; cases hg
                    | some r1 =>
                      rw [hsl] at hg
                      cases hg
                      rw [stripLit_append _ rest _ hsl t]
                  · rw [if_neg h5] at hg ⊢
                    by_cases h6 : c = 'f'
                    · rw [if_pos h6] at hg ⊢
                      cases hsl : stripLit ('a' :: 'l' :: 's' :: 'e' :: []) rest with
                      | none => rw [hsl] at hg; cases hg
                      | some r1 =>
                        rw [hsl] at hg
                        cases hg
                        rw [stripLit_append _ rest _ hsl t]
                    · rw [if_neg h6] at hg ⊢
                      by_cases h7 : (c = '-' || c.isDigit) = true
                      · rw [if_pos h7] at hg ⊢
                        have hgd : r = [] → digitHead t = false := by
                          intro hr
                          obtain ⟨n, hn⟩ := parseNum_shape hg
                          have := hguard hr
                          rw [hn] at this
                          exact this
                        exact parseNum_append hg t hgd
                      · rw [if_neg h7] at hg
                        cases hg
    · -- parseObjRest
      intro g s v r t hfg hg
      cases g with
      | zero => exact absurd hfg (by omega)
      | succ g2 =>
        have hfg2 : f ≤ g2 := by omega
        unfold parseObjRest at hg ⊢
        cases hsk : skipWs s with
        | nil => rw [hsk] at hg; cases hg
        | cons c rest =>
          rw [hsk] at hg
          rw [skipWs_append hsk t]
          dsimp only at hg ⊢
          by_cases h1 : c = rbr
          · rw [if_pos h1] at hg ⊢
            cases hg
            rfl
          · rw [if_neg h1] at hg ⊢
            cases hms : parseMemberSeq f (c :: rest) with
            | none => rw [hms] at hg; cases hg
            | some p =>
              obtain ⟨ms, r1⟩ := p
              rw [hms] at hg
              cases hg
              have := ihM g2 (c :: rest) ms _ t hfg2 hms
              rw [show c :: (rest ++ t) = (c :: rest) ++ t from rfl, this]
    · -- parseMemberSeq
      intro g s ms r t hfg hg
      cases g with
      | zero => exact absurd hfg (by omega)
      | succ g2 =>
        have hfg2 : f ≤ g2 := by omega
        unfold parseMemberSeq at hg ⊢
        cases hsk : skipWs s with
        | nil => rw [hsk] at hg; cases hg
        | cons c rest =>
          rw [hsk] at hg
          rw [skipWs_append hsk t]
          dsimp only at hg ⊢
          by_cases h1 : c = qch
          · rw [if_pos h1] at hg ⊢
            cases hps : parseStrAux rest with
            | none => rw [hps] at hg; cases hg
            | some p =>
              obtain ⟨kcs, r1⟩ := p
              rw [hps] at hg
              rw [parseStrAux_append rest kcs _ hps t]
              dsimp only at hg ⊢
              cases hsk1 : skipWs r1 with
              | nil => rw [hsk1] at hg; cases hg
              | cons c1 r2 =>
                rw [hsk1] at hg
                rw [skipWs_append hsk1 t]
                dsimp only at hg ⊢
                by_cases hc1 : c1 = ':'
                · rw [if_pos hc1] at hg ⊢
                  cases hv : parseVal f r2 with
                  | none => rw [hv] at hg; cases hg
                  | some p2 =>
                    obtain ⟨v0, r3⟩ := p2
                    rw [hv] at hg
                    dsimp only at hg
                    cases hsk3 : skipWs r3 with
                    | nil => rw [hsk3] at hg; cases hg
                    | cons c2 r4 =>
                      have hr3ne : r3 ≠ [] := by
                        intro hh
                        rw [hh] at hsk3
                        cases hsk3
                      rw [ihV g2 r2 v0 r3 t hfg2 hv
                            (fun hh => absurd hh hr3ne)]
                      dsimp only
                      rw [hsk3] at hg
                      rw [skipWs_append hsk3 t]
                      dsimp only at hg ⊢
                      by_cases hc2 : c2 = ','
                      · rw [if_pos hc2] at hg ⊢
                        cases hms : parseMemberSeq f r4 with
                        | none => rw [hms] at hg; cases hg
                        | some p3 =>
                          obtain ⟨ms2, r5⟩ := p3
                          rw [hms] at hg
                          cases hg
                          rw [ihM g2 r4 ms2 _ t hfg2 hms]
                      · rw [if_neg hc2] at hg ⊢
                        by_cases hc2b : c2 = rbr
                        · rw [if_pos hc2b] at hg ⊢
                          cases hg
                          rfl
                        · rw [if_neg hc2b] at hg
                          cases hg
                · rw [if_neg hc1] at hg
                  cases hg
          · rw [if_neg h1] at hg
            cases hg
    · -- parseArrRest
      intro g s v r t hfg hg
      cases g with
      | zero => exact absurd hfg (by omega)
      | succ g2 =>
        have hfg2 : f ≤ g2 := by omega
        unfold parseArrRest at hg ⊢
        cases hsk : skipWs s with
        | nil => rw [hsk] at hg; cases hg
        | cons c rest =>
          rw [hsk] at hg
          rw [skipWs_append hsk t]
          dsimp only at hg ⊢
          by_cases h1 : c = ']'
          · rw [if_pos h1] at hg ⊢
            cases hg
            rfl
          · rw [if_neg h1] at hg ⊢
            cases hes : parseElemSeq f (c :: rest) with
            | none => rw [hes] at hg; cases hg
            | some p =>
              obtain ⟨xs, r1⟩ := p
              rw [hes] at hg
              cases hg
              have := ihE g2 (c :: rest) xs _ t hfg2 hes
              rw [show c :: (rest ++ t) = (c :: rest) ++ t from rfl, this]
    · -- parseElemSeq
      intro g s xs r t hfg hg
      cases g with
      | zero => exact absurd hfg (by omega)
      | succ g2 =>
        have hfg2 : f ≤ g2 := by omega
        unfold parseElemSeq at hg ⊢
        cases hv : parseVal f s with
        | none => rw [hv] at hg; cases hg
        | some p =>
          obtain ⟨v0, r1⟩ := p
          rw [hv] at hg
          dsimp only at hg
          cases hsk1 : skipWs r1 with
          | nil => rw [hsk1] at hg; cases hg
          | cons c r2 =>
            have hr1ne : r1 ≠ [] := by
              intro hh
              rw [hh] at hsk1
              cases hsk1
            rw [ihV g2 s v0 r1 t hfg2 hv (fun hh => absurd hh hr1ne)]
            dsimp only
            rw [hsk1] at hg
            rw [skipWs_append hsk1 t]
            dsimp only at hg ⊢
            by_cases hc : c = ','
            · rw [if_pos hc] at hg ⊢
              cases hes : parseElemSeq f r2 with
              | none => rw [hes] at hg; cases hg
              | some p2 =>
                obtain ⟨xs2, r3⟩ := p2
                rw [hes] at hg
                cases hg
                rw [ihE g2 r2 xs2 _ t hfg2 hes]
            · rw [if_neg hc] at hg ⊢
              by_cases hcb : c = ']'
              · rw [if_pos hcb] at hg ⊢
                cases hg
                rfl
              · rw [if_neg hcb] at hg
                cases hg

/-- The raw-capturing member parser is likewise stable under appending,
at any larger fuel; the captured raw bytes are unchanged because the
value's extent within the stream is unchanged. -/
theorem parseMemberSeqRaw_append : ∀ (f g : Nat) (s : List Char)
    (ms : List (String × Json × List Char)) (r t : List Char),
    f ≤ g → parseMemberSeqRaw f s = some (ms, r) →
    parseMemberSeqRaw g (s ++ t) = some (ms, r ++ t) := by
  intro f
  induction f with
  | zero =>
    intro g s ms r t hfg h
    exact Option.noConfusion h
  | succ f ih =>
    intro g s ms r t hfg h
    cases g with
    | zero => exact absurd hfg (by omega)
    | succ g2 =>
      have hfg2 : f ≤ g2 := by omega
      unfold parseMemberSeqRaw at h ⊢
      cases hsk : skipWs s with
      | nil => rw [hsk] at h; cases h
      | cons c rest =>
        rw [hsk] at h
        rw [skipWs_append hsk t]
        dsimp only at h ⊢
        by_cases h1 : c = qch
        · rw [if_pos h1] at h ⊢
          cases hps : parseStrAux rest with
          | none => rw [hps] at h; cases h
          | some p =>
            obtain ⟨kcs, r1⟩ := p
            rw [hps] at h
            rw [parseStrAux_append rest kcs _ hps t]
            dsimp only at h ⊢
            cases hsk1 : skipWs r1 with
            | nil => rw [hsk1] at h; cases h
            | cons c1 r2 =>
              rw [hsk1] at h
              rw [skipWs_append hsk1 t]
              dsimp only at h ⊢
              by_cases hc1 : c1 = ':'
              · rw [if_pos hc1] at h ⊢
                cases hsv : skipWs r2 with
                | nil =>
                  rw [hsv, parseVal_nil] at h
                  cases h
                | cons c2 rest2 =>
                  rw [hsv] at h
                  rw [skipWs_append hsv t]
                  cases hv : parseVal f (c2 :: rest2) with
                  | none => rw [hv] at h; cases h
                  | some p2 =>
                    obtain ⟨v0, r3⟩ := p2
                    rw [hv] at h
                    dsimp only at h
                    cases hsk3 : skipWs r3 with
                    | nil => rw [hsk3] at h; cases h
                    | cons c3 r4 =>
                      have hr3ne : r3 ≠ [] := by
                        intro hh
                        rw [hh] at hsk3
                        cases hsk3
                      rw [show c2 :: (rest2 ++ t) = (c2 :: rest2) ++ t from rfl]
                      rw [(parse_append f).1 g2 (c2 :: rest2) v0 r3 t hfg2 hv
                            (fun hh => absurd hh hr3ne)]
                      dsimp only
                      rw [show ((c2 :: rest2) ++ t).length
                            = (c2 :: rest2).length + t.length from List.length_append _ _]
                      rw [show (r3 ++ t).length = r3.length + t.length by simp]
                      rw [show (c2 :: rest2).length + t.length - (r3.length + t.length)
                            = (c2 :: rest2).length - r3.length by omega]
                      rw [List.take_append_of_le_length (Nat.sub_le _ _)]
                      rw [hsk3] at h
                      rw [skipWs_append hsk3 t]
                      dsimp only at h ⊢
                      by_cases hc3 : c3 = ','
                      · rw [if_pos hc3] at h ⊢
                        cases hms : parseMemberSeqRaw f r4 with
                        | none => rw [hms] at h; cases h
                        | some p3 =>
                          obtain ⟨ms2, r5⟩ := p3
                          rw [hms] at h
                          cases h
                          rw [ih g2 r4 ms2 _ t hfg2 hms]
                      · rw [if_neg hc3] at h ⊢
                        by_cases hc3b : c3 = rbr
                        · rw [if_pos hc3b] at h ⊢
                          cases h
                          rfl
                        · rw [if_neg hc3b] at h
                          cases h
              · rw [if_neg hc1] at h
                cases h
        · rw [if_neg h1] at h
          cases h

/-- A body whose significant prefix is one complete object envelope
decodes identically after appending arbitrary trailing bytes: the
decoder never looks past the object's closing brace. -/
theorem goDecodeRequest_append (s t : List Char) (req : MCPRequest)
    (hobj : ∃ c rest, skipWs s = c :: rest ∧ c = lbr)
    (hdec : goDecodeRequest s = some (req, [])) :
    goDecodeRequest (s ++ t) = some (req, t) := by
  obtain ⟨c, rest, hsk, hc⟩ := hobj
  unfold goDecodeRequest at hdec ⊢
  rw [hsk] at hdec
  rw [skipWs_append hsk t]
  dsimp only at hdec ⊢
  rw [if_pos hc] at hdec ⊢
  cases hsk2 : skipWs rest with
  | nil => rw [hsk2] at hdec; cases hdec
  | cons c2 rest2 =>
    rw [hsk2] at hdec
    rw [skipWs_append hsk2 t]
    dsimp only at hdec ⊢
    by_cases hc2 : c2 = rbr
    · rw [if_pos hc2] at hdec ⊢
      cases hdec
      rfl
    · rw [if_neg hc2] at hdec ⊢
      cases hraw : parseMemberSeqRaw (4 * s.length + 4) (c2 :: rest2) with
      | none => rw [hraw] at hdec; cases hdec
      | some p =>
        obtain ⟨ms, r⟩ := p
        rw [hraw] at hdec
        dsimp only at hdec
        cases hfold : foldReqFields MCPRequest.zero ms with
        | none => rw [hfold] at hdec; cases hdec
        | some req2 =>
          rw [hfold] at hdec
          cases hdec
          have happ := parseMemberSeqRaw_append (4 * s.length + 4)
              (4 * (s ++ t).length + 4) (c2 :: rest2) ms [] t
              (by rw [List.length_append]; omega) hraw
          rw [show c2 :: (rest2 ++ t) = (c2 :: rest2) ++ t from rfl, happ]
          simp [hfold]

/-- Claim C9: for every POST body whose initial bytes form one
well-formed JSON request envelope (an object), trailing bytes after
that first JSON value are ignored rather than rejected: the gateway
decodes only the first value, handles the request exactly as it would
handle the clean body, and never returns the 400 malformed-body
response for such input. -/
theorem claim9_thm (spawnOk : Bool) (child : ChildBehavior) (st : HState)
    (m hdr : String) (s t : List Char) (req : MCPRequest)
    (hobj : ∃ c rest, skipWs s = c :: rest ∧ c = lbr)
    (hdec : goDecodeRequest s = some (req, [])) :
    handleMCP spawnOk child st
        { method := m, sessionHeader := hdr, body := s ++ t } =
      handleMCP spawnOk child st
        { method := m, sessionHeader := hdr, body := s } ∧
    (handleMCP spawnOk child st
        { method := m, sessionHeader := hdr, body := s ++ t }).2.status ≠ 400 := by
  have hdec2 := goDecodeRequest_append s t req hobj hdec
  by_cases hm : m = "POST"
  · constructor
    · unfold handleMCP
      dsimp only
      rw [if_neg (show ¬ m ≠ "POST" by simp [hm])]
      rw [if_neg (show ¬ m ≠ "POST" by simp [hm])]
      cases hres : getOrCreateSession spawnOk st
          (if hdr = "" then "default" else hdr) with
      | none => rfl
      | some p =>
        obtain ⟨st1, sid⟩ := p
        dsimp only
        rw [hdec2, hdec]
    · unfold handleMCP
      dsimp only
      rw [if_neg (show ¬ m ≠ "POST" by simp [hm])]
      cases hres : getOrCreateSession spawnOk st
          (if hdr = "" then "default" else hdr) with
      | none =>
        simp
      | some p =>
        obtain ⟨st1, sid⟩ := p
        dsimp only
        rw [hdec2]
        cases hsr : SendRequest child st1 sid req with
        | mk st2 ores =>
          cases ores with
          | none => simp [hsr]
          | some resp => simp [hsr]
  · constructor
    · unfold handleMCP
      dsimp only
      rw [if_pos (show m ≠ "POST" from hm)]
      rw [if_pos (show m ≠ "POST" from hm)]
    · unfold handleMCP
      dsimp only
      rw [if_pos (show m ≠ "POST" from hm)]
      simp

/-- Witness for C9: a well-formed envelope body followed by trailing
garbage is handled exactly like the clean body and is not rejected
with 400. -/
theorem claim9_witness :
    handleMCP true
        (ChildBehavior.reply
          (("\x7b\"jsonrpc\":\"2.0\",\"id\":1,\"result\":\"pong\"\x7d\n").data))
        { table := [("default", 0)], nextSid := 1, spawned := 1, closed := [],
          writes := [], writeAttempts := 0 }
        { method := "POST", sessionHeader := "",
          body := ("\x7b\"jsonrpc\":\"2.0\",\"id\":1,\"method\":\"ping\"\x7d").data
            ++ ("GARBAGE)(").data } =
      handleMCP true
        (ChildBehavior.reply
          (("\x7b\"jsonrpc\":\"2.0\",\"id\":1,\"result\":\"pong\"\x7d\n").data))
        { table := [("default", 0)], nextSid := 1, spawned := 1, closed := [],
          writes := [], writeAttempts := 0 }
        { method := "POST", sessionHeader := "",
          body := ("\x7b\"jsonrpc\":\"2.0\",\"id\":1,\"method\":\"ping\"\x7d").data } ∧
    (handleMCP true
        (ChildBehavior.reply
          (("\x7b\"jsonrpc\":\"2.0\",\"id\":1,\"result\":\"pong\"\x7d\n").data))
        { table := [("default", 0)], nextSid := 1, spawned := 1, closed := [],
          writes := [], writeAttempts := 0 }
        { method := "POST", sessionHeader := "",
          body := ("\x7b\"jsonrpc\":\"2.0\",\"id\":1,\"method\":\"ping\"\x7d").data
            ++ ("GARBAGE)(").data }).2.status ≠ 400 :=
  claim9_thm true
    (ChildBehavior.reply
      (("\x7b\"jsonrpc\":\"2.0\",\"id\":1,\"result\":\"pong\"\x7d\n").data))
    { table := [("default", 0)], nextSid := 1, spawned := 1, closed := [],
      writes := [], writeAttempts := 0 }
    "POST" ""
    (("\x7b\"jsonrpc\":\"2.0\",\"id\":1,\"method\":\"ping\"\x7d").data)
    (("GARBAGE)(").data)
    { jsonrpc := "2.0", id := some (Json.num 1), method := "ping", params := none }
    ⟨lbr, (("\"jsonrpc\":\"2.0\",\"id\":1,\"method\":\"ping\"\x7d").data),
      by rfl, rfl⟩
    (by rfl)

end Har
